import Mathlib

/-!
Verification of the pixel repository's ECS core (src/src/ECS.cpp together
with the headers ECS.h / Components.h / Game.h found under src/unnamed):
entity lifecycle, component pools, signature-based entity/system matching,
and the tag/group index layer, shallowly embedded in Lean.

Modelling conventions:
* C++ `size_t` / `int` identifiers become `Nat`; the `Entity` wrapper class
  carries only its id and is identified with that id.
* `std::bitset<32>` component signatures become `Nat` viewed bitwise (the
  claims only exercise component ids far below 32, where the two agree).
* `std::unordered_map` becomes an association list with lookup semantics:
  `emplace` is insert-if-absent, assignment through `operator[]` is
  overwrite-or-insert, and `erase` removes the key.
* `std::set<Entity>` becomes an ascending sorted `List Nat`, matching the
  set's ascending iteration order.  `std::set<std::string>` becomes a
  duplicate-free list; its C++ iteration order is lexicographic while the
  model keeps insertion order, which is harmless because every modelled
  operation that iterates such a set acts on distinct map keys and its
  result is independent of the iteration order.
* `std::map::at` on a missing key throws `std::out_of_range`; functions
  that can throw return `Option` (`none` = exception escapes).
  Out-of-bounds writes through `std::vector::operator[]` are undefined
  behaviour in C++; the model makes them no-ops and the theorems carry
  hypotheses that keep all exercised indices in bounds.
-/

----------------------------------------------------------------------------
-- Association-list maps (model of std::unordered_map)
----------------------------------------------------------------------------

/-- Map lookup (`find` / `at` on a map that contains the key). -/
def alookup {κ β : Type} [DecidableEq κ] : List (κ × β) → κ → Option β
  | [], _ => none
  | (k', v) :: rest, k => if k' = k then some v else alookup rest k

/-- Overwrite-or-insert (assignment through `operator[]`). -/
def aset {κ β : Type} [DecidableEq κ] : List (κ × β) → κ → β → List (κ × β)
  | [], k, v => [(k, v)]
  | (k', v') :: rest, k, v =>
    if k' = k then (k, v) :: rest else (k', v') :: aset rest k v

/-- Insert-if-absent (`emplace`): a no-op when the key is already bound. -/
def aemplace {κ β : Type} [DecidableEq κ] (l : List (κ × β)) (k : κ) (v : β) :
    List (κ × β) :=
  if (alookup l k).isSome then l else (k, v) :: l

/-- Remove a key (`erase`). -/
def aerase {κ β : Type} [DecidableEq κ] : List (κ × β) → κ → List (κ × β)
  | [], _ => []
  | (k', v') :: rest, k =>
    if k' = k then aerase rest k else (k', v') :: aerase rest k

/-- The keys of an association list are pairwise distinct (always true of a
real `std::unordered_map`; an invariant of the model). -/
def NodupKeys {κ β : Type} (l : List (κ × β)) : Prop := (l.map Prod.fst).Nodup

theorem alookup_mem {κ β : Type} [DecidableEq κ] {l : List (κ × β)} {k : κ}
    {v : β} (h : alookup l k = some v) : (k, v) ∈ l := by
  induction l with
  | nil => simp [alookup] at h
  | cons hd tl ih =>
    obtain ⟨a, b⟩ := hd
    by_cases hk : a = k
    · subst hk
      simp [alookup] at h
      subst h
      exact List.mem_cons_self _ _
    · simp [alookup, hk] at h
      exact List.mem_cons_of_mem _ (ih h)

theorem alookup_eq_none_iff {κ β : Type} [DecidableEq κ] {l : List (κ × β)}
    {k : κ} : alookup l k = none ↔ k ∉ l.map Prod.fst := by
  induction l with
  | nil => simp [alookup]
  | cons hd tl ih =>
    obtain ⟨a, b⟩ := hd
    by_cases hk : a = k
    · subst hk
      simp [alookup]
    · simp [alookup, hk, ih, Ne.symm hk]

theorem mem_keys_of_alookup {κ β : Type} [DecidableEq κ] {l : List (κ × β)}
    {k : κ} {v : β} (h : alookup l k = some v) : k ∈ l.map Prod.fst := by
  by_contra hk
  rw [← alookup_eq_none_iff] at hk
  rw [h] at hk
  exact Option.noConfusion hk

theorem nodupKeys_cons {κ β : Type} {a : κ} {b : β} {tl : List (κ × β)} :
    NodupKeys ((a, b) :: tl) ↔ a ∉ tl.map Prod.fst ∧ NodupKeys tl := by
  unfold NodupKeys
  rw [List.map_cons, List.nodup_cons]

theorem alookup_of_mem_nodup {κ β : Type} [DecidableEq κ] {l : List (κ × β)}
    {k : κ} {v : β} (hn : NodupKeys l) (h : (k, v) ∈ l) :
    alookup l k = some v := by
  induction l with
  | nil => simp at h
  | cons hd tl ih =>
    obtain ⟨a, b⟩ := hd
    obtain ⟨hn1, hn2⟩ := nodupKeys_cons.mp hn
    rcases List.mem_cons.mp h with h1 | h1
    · obtain ⟨rfl, rfl⟩ := Prod.mk.injEq .. ▸ h1
      simp [alookup]
    · have hak : a ≠ k := by
        rintro rfl
        exact hn1 (by simpa using List.mem_map_of_mem Prod.fst h1)
      simp [alookup, hak]
      exact ih hn2 h1

theorem alookup_aset_self {κ β : Type} [DecidableEq κ] (l : List (κ × β))
    (k : κ) (v : β) : alookup (aset l k v) k = some v := by
  induction l with
  | nil => simp [aset, alookup]
  | cons hd tl ih =>
    obtain ⟨a, b⟩ := hd
    by_cases hk : a = k
    · simp [aset, hk, alookup]
    · simp [aset, hk, alookup, ih]

theorem alookup_aset_ne {κ β : Type} [DecidableEq κ] (l : List (κ × β))
    {k k' : κ} (v : β) (h : k' ≠ k) :
    alookup (aset l k v) k' = alookup l k' := by
  induction l with
  | nil => simp [aset, alookup, Ne.symm h]
  | cons hd tl ih =>
    obtain ⟨a, b⟩ := hd
    by_cases hk : a = k
    · subst hk
      simp [aset, alookup, Ne.symm h, h]
    · simp [aset, hk, alookup, ih]

theorem alookup_aerase_self {κ β : Type} [DecidableEq κ] (l : List (κ × β))
    (k : κ) : alookup (aerase l k) k = none := by
  induction l with
  | nil => simp [aerase, alookup]
  | cons hd tl ih =>
    obtain ⟨a, b⟩ := hd
    by_cases hk : a = k
    · simp [aerase, hk, ih]
    · simp [aerase, hk, alookup, ih]

theorem alookup_aerase_ne {κ β : Type} [DecidableEq κ] (l : List (κ × β))
    {k k' : κ} (h : k' ≠ k) : alookup (aerase l k) k' = alookup l k' := by
  induction l with
  | nil => simp [aerase]
  | cons hd tl ih =>
    obtain ⟨a, b⟩ := hd
    by_cases hk : a = k
    · subst hk
      simp [aerase, alookup, Ne.symm h, ih]
    · simp [aerase, hk, alookup, ih]

theorem aerase_eq_filter {κ β : Type} [DecidableEq κ] (l : List (κ × β))
    (k : κ) : aerase l k = l.filter (fun pr => decide (pr.1 ≠ k)) := by
  induction l with
  | nil => simp [aerase]
  | cons hd tl ih =>
    obtain ⟨a, b⟩ := hd
    by_cases hk : a = k
    · subst hk
      simp [aerase, ih]
    · simp [aerase, hk, ih]

theorem mem_aerase {κ β : Type} [DecidableEq κ] {l : List (κ × β)} {k : κ}
    {pr : κ × β} : pr ∈ aerase l k ↔ pr ∈ l ∧ pr.1 ≠ k := by
  rw [aerase_eq_filter]
  simp [List.mem_filter]

theorem mem_aset_of_mem {κ β : Type} [DecidableEq κ] {l : List (κ × β)}
    {k : κ} {v : β} {pr : κ × β} (h : pr ∈ aset l k v) :
    pr = (k, v) ∨ pr ∈ l := by
  induction l with
  | nil => simpa [aset] using h
  | cons hd tl ih =>
    obtain ⟨a, b⟩ := hd
    by_cases hk : a = k
    · subst hk
      rcases (by simpa [aset] using h : pr = (a, v) ∨ pr ∈ tl) with h1 | h1
      · exact Or.inl h1
      · exact Or.inr (List.mem_cons_of_mem _ h1)
    · rcases (by simpa [aset, hk] using h : pr = (a, b) ∨ pr ∈ aset tl k v)
        with h1 | h1
      · exact Or.inr (by simp [h1])
      · rcases ih h1 with h2 | h2
        · exact Or.inl h2
        · exact Or.inr (List.mem_cons_of_mem _ h2)

theorem keys_aset_present {κ β : Type} [DecidableEq κ] {l : List (κ × β)}
    {k : κ} {w : β} (h : alookup l k = some w) (v : β) :
    (aset l k v).map Prod.fst = l.map Prod.fst := by
  induction l with
  | nil => simp [alookup] at h
  | cons hd tl ih =>
    obtain ⟨a, b⟩ := hd
    by_cases hk : a = k
    · subst hk
      simp [aset]
    · simp [alookup, hk] at h
      simp [aset, hk, ih h]

theorem length_aset_present {κ β : Type} [DecidableEq κ] {l : List (κ × β)}
    {k : κ} {w : β} (h : alookup l k = some w) (v : β) :
    (aset l k v).length = l.length := by
  have h1 : (aset l k v).length = ((aset l k v).map Prod.fst).length := by
    simp
  rw [h1, keys_aset_present h v]
  simp

theorem keys_aerase {κ β : Type} [DecidableEq κ] (l : List (κ × β)) (k : κ) :
    (aerase l k).map Prod.fst =
      (l.map Prod.fst).filter (fun x => decide (x ≠ k)) := by
  induction l with
  | nil => simp [aerase]
  | cons hd tl ih =>
    obtain ⟨a, b⟩ := hd
    by_cases hk : a = k
    · subst hk
      simp [aerase, ih]
    · simp [aerase, hk, ih]

theorem nodupKeys_aerase {κ β : Type} [DecidableEq κ] {l : List (κ × β)}
    (k : κ) (h : NodupKeys l) : NodupKeys (aerase l k) := by
  unfold NodupKeys at h ⊢
  rw [keys_aerase]
  exact h.filter _

theorem mem_keys_aset {κ β : Type} [DecidableEq κ] {l : List (κ × β)}
    {k x : κ} {v : β} (h : x ∈ (aset l k v).map Prod.fst) :
    x = k ∨ x ∈ l.map Prod.fst := by
  simp at h
  obtain ⟨b, hb⟩ := h
  rcases mem_aset_of_mem hb with h1 | h1
  · exact Or.inl (congrArg Prod.fst h1)
  · exact Or.inr (by simpa using List.mem_map_of_mem Prod.fst h1)

theorem nodupKeys_aset {κ β : Type} [DecidableEq κ] {l : List (κ × β)}
    {k : κ} (v : β) (h : NodupKeys l) : NodupKeys (aset l k v) := by
  induction l with
  | nil => simp [aset, NodupKeys]
  | cons hd tl ih =>
    obtain ⟨a, b⟩ := hd
    obtain ⟨h1, h2⟩ := nodupKeys_cons.mp h
    by_cases hk : a = k
    · subst hk
      rw [aset]
      simp only [if_pos rfl]
      exact nodupKeys_cons.mpr ⟨h1, h2⟩
    · rw [aset]
      simp only [if_neg hk]
      refine nodupKeys_cons.mpr ⟨?_, ih h2⟩
      intro hmem
      rcases mem_keys_aset hmem with h3 | h3
      · exact hk h3
      · exact h1 h3

theorem aerase_of_alookup_none {κ β : Type} [DecidableEq κ]
    {l : List (κ × β)} {k : κ} (h : alookup l k = none) : aerase l k = l := by
  induction l with
  | nil => simp [aerase]
  | cons hd tl ih =>
    obtain ⟨a, b⟩ := hd
    by_cases hk : a = k
    · subst hk
      simp [alookup] at h
    · simp [alookup, hk] at h
      simp [aerase, hk, ih h]

theorem length_aerase_present {κ β : Type} [DecidableEq κ]
    {l : List (κ × β)} {k : κ} {v : β} (hn : NodupKeys l)
    (h : alookup l k = some v) : (aerase l k).length + 1 = l.length := by
  induction l with
  | nil => simp [alookup] at h
  | cons hd tl ih =>
    obtain ⟨a, b⟩ := hd
    obtain ⟨hn1, hn2⟩ := nodupKeys_cons.mp hn
    by_cases hk : a = k
    · subst hk
      have hnone : alookup tl a = none := alookup_eq_none_iff.mpr hn1
      simp [aerase, aerase_of_alookup_none hnone]
    · simp [alookup, hk] at h
      simp [aerase, hk]
      exact ih hn2 h

theorem alookup_aemplace_present {κ β : Type} [DecidableEq κ]
    {l : List (κ × β)} {k : κ} (v : β)
    (h : (alookup l k).isSome = true) : aemplace l k v = l := by
  simp [aemplace, h]

theorem alookup_aemplace_self {κ β : Type} [DecidableEq κ]
    {l : List (κ × β)} {k : κ} (v : β) (h : alookup l k = none) :
    alookup (aemplace l k v) k = some v := by
  simp [aemplace, h, alookup]

theorem alookup_aemplace_ne {κ β : Type} [DecidableEq κ]
    {l : List (κ × β)} {k k' : κ} (v : β) (h : k' ≠ k) :
    alookup (aemplace l k v) k' = alookup l k' := by
  unfold aemplace
  by_cases hp : (alookup l k).isSome = true
  · simp [hp]
  · simp [hp, alookup, Ne.symm h]

----------------------------------------------------------------------------
-- Sorted Nat sets (model of std::set<Entity>) and duplicate-free lists
-- (model of std::set<std::string>)
----------------------------------------------------------------------------

/-- Ascending insertion into a sorted duplicate-free list: the model of
`std::set<Entity>::insert`. -/
def sinsert : List Nat → Nat → List Nat
  | [], x => [x]
  | y :: rest, x =>
    if x < y then x :: y :: rest
    else if x = y then y :: rest
    else y :: sinsert rest x

theorem mem_sinsert {l : List Nat} {x a : Nat} :
    a ∈ sinsert l x ↔ a = x ∨ a ∈ l := by
  induction l with
  | nil => simp [sinsert]
  | cons y rest ih =>
    rw [sinsert]
    by_cases h1 : x < y
    · simp [h1]
    · by_cases h2 : x = y
      · subst h2
        simp [h1]
      · simp [h1, h2, ih]
        tauto

theorem sinsert_self (l : List Nat) (x : Nat) : x ∈ sinsert l x :=
  mem_sinsert.mpr (Or.inl rfl)

/-- Duplicate-free insertion, used for `std::set<std::string>`. -/
def dinsert {κ : Type} [DecidableEq κ] (l : List κ) (x : κ) : List κ :=
  if x ∈ l then l else l ++ [x]

theorem mem_dinsert {κ : Type} [DecidableEq κ] {l : List κ} {x a : κ} :
    a ∈ dinsert l x ↔ a = x ∨ a ∈ l := by
  unfold dinsert
  by_cases h : x ∈ l
  · simp [h]
    rintro rfl
    exact h
  · simp [h]
    tauto

/-- Erase an element from a modelled set (`std::set::erase`). -/
def serase {κ : Type} [DecidableEq κ] : List κ → κ → List κ
  | [], _ => []
  | y :: rest, x => if y = x then serase rest x else y :: serase rest x

theorem serase_eq_filter {κ : Type} [DecidableEq κ] (l : List κ) (x : κ) :
    serase l x = l.filter (fun y => decide (y ≠ x)) := by
  induction l with
  | nil => simp [serase]
  | cons y rest ih =>
    by_cases h : y = x
    · subst h
      simp [serase, ih]
    · simp [serase, h, ih]

theorem mem_serase {κ : Type} [DecidableEq κ] {l : List κ} {x a : κ} :
    a ∈ serase l x ↔ a ∈ l ∧ a ≠ x := by
  rw [serase_eq_filter]
  simp [List.mem_filter]

----------------------------------------------------------------------------
-- Component pool (`Pool<T>`, src/unnamed/part_001, ECS.h lines 345-435)
----------------------------------------------------------------------------

/-- Shallow embedding of `Pool<T>`.  `data` is the backing vector, modelled
as a total function from slot index to value (slots at or beyond `size`
hold junk, like the default-constructed tail of the C++ vector); capacity
bookkeeping has no observable effect and is not modelled.  The two
auxiliary `unordered_map<int, int>` members keep their C++ names. -/
structure Pool (α : Type) where
  data : Nat → α
  size : Nat
  entityIdToIndex : List (Nat × Nat)
  indexToEntityId : List (Nat × Nat)

/-- A freshly constructed pool (`Pool(int capacity = 100)`). -/
def Pool.init (α : Type) [Inhabited α] : Pool α :=
  ⟨fun _ => default, 0, [], []⟩

/-- `Pool::set(entityId, object)`: overwrite in place when present,
otherwise append at slot `size` and record both mappings (`emplace`). -/
def Pool.set {α : Type} (p : Pool α) (entityId : Nat) (object : α) :
    Pool α :=
  match alookup p.entityIdToIndex entityId with
  | some index =>
    { p with data := fun j => if j = index then object else p.data j }
  | none =>
    let index := p.size
    { p with
      entityIdToIndex := aemplace p.entityIdToIndex entityId index
      indexToEntityId := aemplace p.indexToEntityId index entityId
      data := fun j => if j = index then object else p.data j
      size := p.size + 1 }

/-- `Pool::remove(entityId)`: no-op when absent, otherwise swap-remove
with the last dense slot.  `indexToEntityId[indexOfLast]` is read through
`operator[]`, modelled by `getD 0` (the map's default value). -/
def Pool.remove {α : Type} (p : Pool α) (entityId : Nat) : Pool α :=
  match alookup p.entityIdToIndex entityId with
  | none => p
  | some indexOfRemoved =>
    let indexOfLast := p.size - 1
    let entityIdOfLast := (alookup p.indexToEntityId indexOfLast).getD 0
    { p with
      data := fun j =>
        if j = indexOfRemoved then p.data indexOfLast else p.data j
      entityIdToIndex :=
        aerase (aset p.entityIdToIndex entityIdOfLast indexOfRemoved)
          entityId
      indexToEntityId :=
        aerase (aset p.indexToEntityId indexOfRemoved entityIdOfLast)
          indexOfLast
      size := p.size - 1 }

/-- `Pool::get(entityId)` (reads through `operator[]` on the map, i.e.
slot 0 when the entity is absent — callers must guard, see spec section
7). -/
def Pool.get {α : Type} (p : Pool α) (entityId : Nat) : α :=
  p.data ((alookup p.entityIdToIndex entityId).getD 0)

/-- `Pool::getSize()`. -/
def Pool.getSize {α : Type} (p : Pool α) : Nat := p.size

/-- `Pool::isEmpty()`. -/
def Pool.isEmpty {α : Type} (p : Pool α) : Bool := p.size == 0

/-- The abstract content of the pool: the partial map from entity id to
stored value that the pool represents. -/
def Pool.contentOf {α : Type} (p : Pool α) (e : Nat) : Option α :=
  (alookup p.entityIdToIndex e).map p.data

/-- Pool representation invariant: the two auxiliary maps have distinct
keys, are mutual inverses, and map the present entities exactly onto the
dense slots `[0, size)` with no gaps; `size` equals the number of stored
bindings. -/
def PoolInv {α : Type} (p : Pool α) : Prop :=
  NodupKeys p.entityIdToIndex ∧ NodupKeys p.indexToEntityId ∧
  (∀ pr ∈ p.entityIdToIndex,
    pr.2 < p.size ∧ alookup p.indexToEntityId pr.2 = some pr.1) ∧
  (∀ pr ∈ p.indexToEntityId,
    pr.1 < p.size ∧ alookup p.entityIdToIndex pr.2 = some pr.1) ∧
  (∀ i ∈ List.range p.size, (alookup p.indexToEntityId i).isSome = true) ∧
  p.entityIdToIndex.length = p.size ∧
  p.indexToEntityId.length = p.size

instance {α : Type} (p : Pool α) : Decidable (PoolInv p) := by
  unfold PoolInv NodupKeys
  exact inferInstance

theorem poolInv_init (α : Type) [Inhabited α] : PoolInv (Pool.init α) := by
  refine ⟨?_, ?_, ?_, ?_, ?_, ?_, ?_⟩ <;> simp [Pool.init, NodupKeys]

theorem mem_aset_nodup {κ β : Type} [DecidableEq κ] {l : List (κ × β)}
    {k : κ} {v : β} {pr : κ × β} (hn : NodupKeys l) (h : pr ∈ aset l k v) :
    pr = (k, v) ∨ (pr ∈ l ∧ pr.1 ≠ k) := by
  induction l with
  | nil => exact Or.inl (by simpa [aset] using h)
  | cons hd tl ih =>
    obtain ⟨a, b⟩ := hd
    obtain ⟨hn1, hn2⟩ := nodupKeys_cons.mp hn
    by_cases hk : a = k
    · subst hk
      rcases (by simpa [aset] using h : pr = (a, v) ∨ pr ∈ tl) with h1 | h1
      · exact Or.inl h1
      · refine Or.inr ⟨List.mem_cons_of_mem _ h1, ?_⟩
        intro hpk
        exact hn1 (hpk ▸ List.mem_map_of_mem Prod.fst h1)
    · rcases (by simpa [aset, hk] using h : pr = (a, b) ∨ pr ∈ aset tl k v)
        with h1 | h1
      · exact Or.inr ⟨by simp [h1], by simp [h1, hk]⟩
      · rcases ih hn2 h1 with h2 | h2
        · exact Or.inl h2
        · exact Or.inr ⟨List.mem_cons_of_mem _ h2.1, h2.2⟩

theorem alookup_cons {κ β : Type} [DecidableEq κ] (a : κ) (b : β)
    (tl : List (κ × β)) (k : κ) :
    alookup ((a, b) :: tl) k = if a = k then some b else alookup tl k := rfl

theorem pool_set_of_present {α : Type} {p : Pool α} {e i : Nat}
    (h : alookup p.entityIdToIndex e = some i) (v : α) :
    p.set e v =
      { p with data := fun j => if j = i then v else p.data j } := by
  unfold Pool.set
  rw [h]

theorem pool_set_of_absent {α : Type} {p : Pool α} {e : Nat}
    (h : alookup p.entityIdToIndex e = none)
    (h2 : alookup p.indexToEntityId p.size = none) (v : α) :
    p.set e v =
      { p with
        entityIdToIndex := (e, p.size) :: p.entityIdToIndex
        indexToEntityId := (p.size, e) :: p.indexToEntityId
        data := fun j => if j = p.size then v else p.data j
        size := p.size + 1 } := by
  unfold Pool.set
  rw [h]
  simp [aemplace, h, h2]

theorem pool_remove_of_absent {α : Type} {p : Pool α} {e : Nat}
    (h : alookup p.entityIdToIndex e = none) : p.remove e = p := by
  unfold Pool.remove
  rw [h]

theorem pool_remove_of_present {α : Type} {p : Pool α} {e i : Nat}
    (h : alookup p.entityIdToIndex e = some i) :
    p.remove e =
      { p with
        data := fun j => if j = i then p.data (p.size - 1) else p.data j
        entityIdToIndex :=
          aerase (aset p.entityIdToIndex
            ((alookup p.indexToEntityId (p.size - 1)).getD 0) i) e
        indexToEntityId :=
          aerase (aset p.indexToEntityId i
            ((alookup p.indexToEntityId (p.size - 1)).getD 0)) (p.size - 1)
        size := p.size - 1 } := by
  unfold Pool.remove
  rw [h]

theorem pool_size_not_in_i2e {α : Type} {p : Pool α}
    (hi2e : ∀ pr ∈ p.indexToEntityId,
      pr.1 < p.size ∧ alookup p.entityIdToIndex pr.2 = some pr.1) :
    alookup p.indexToEntityId p.size = none := by
  rw [alookup_eq_none_iff]
  intro hmemk
  simp at hmemk
  obtain ⟨x, hx⟩ := hmemk
  exact absurd (hi2e _ hx).1 (lt_irrefl _)

theorem pool_set_spec {α : Type} {p : Pool α} (hp : PoolInv p) (e : Nat)
    (v : α) :
    PoolInv (p.set e v) ∧
    ∀ x, (p.set e v).contentOf x =
      if x = e then some v else p.contentOf x := by
  obtain ⟨hn1, hn2, he2i, hi2e, hdens, hl1, hl2⟩ := hp
  cases hcase : alookup p.entityIdToIndex e with
  | some i =>
    have hmem : (e, i) ∈ p.entityIdToIndex := alookup_mem hcase
    obtain ⟨hilt, hi2e_i⟩ := he2i _ hmem
    rw [pool_set_of_present hcase v]
    refine ⟨⟨hn1, hn2, he2i, hi2e, hdens, hl1, hl2⟩, ?_⟩
    intro x
    by_cases hx : x = e
    · subst hx
      simp [Pool.contentOf, hcase]
    · simp only [Pool.contentOf, if_neg hx]
      cases hlx : alookup p.entityIdToIndex x with
      | none => simp
      | some j =>
        have hji : j ≠ i := by
          intro hji
          obtain ⟨hjlt, hj⟩ := he2i _ (alookup_mem hlx)
          rw [hji, hi2e_i] at hj
          exact hx (Option.some.inj hj).symm
        simp [hji]
  | none =>
    have hsz_none : alookup p.indexToEntityId p.size = none :=
      pool_size_not_in_i2e hi2e
    rw [pool_set_of_absent hcase hsz_none v]
    constructor
    · refine ⟨?_, ?_, ?_, ?_, ?_, ?_, ?_⟩
      · exact nodupKeys_cons.mpr ⟨alookup_eq_none_iff.mp hcase, hn1⟩
      · exact nodupKeys_cons.mpr ⟨alookup_eq_none_iff.mp hsz_none, hn2⟩
      · intro pr hpr
        rcases List.mem_cons.mp hpr with h1 | h1
        · subst h1
          refine ⟨by simp, ?_⟩
          simp [alookup_cons]
        · obtain ⟨hlt, hl⟩ := he2i _ h1
          refine ⟨by simp; omega, ?_⟩
          have hne : p.size ≠ pr.2 := by omega
          simp [alookup_cons, hne]
          exact hl
      · intro pr hpr
        rcases List.mem_cons.mp hpr with h1 | h1
        · subst h1
          refine ⟨by simp, ?_⟩
          simp [alookup_cons]
        · obtain ⟨hlt, hl⟩ := hi2e _ h1
          refine ⟨by simp; omega, ?_⟩
          have hne : e ≠ pr.2 := by
            intro he
            rw [← he] at hl
            rw [hcase] at hl
            exact Option.noConfusion hl
          simp [alookup_cons, hne]
          exact hl
      · intro j hj
        simp at hj
        by_cases hjs : j = p.size
        · subst hjs
          simp [alookup_cons]
        · have hne : p.size ≠ j := Ne.symm hjs
          have hjlt : j < p.size := by omega
          simp [alookup_cons, hne]
          exact hdens j (by simp [hjlt])
      · simp [hl1]
      · simp [hl2]
    · intro x
      by_cases hx : x = e
      · subst hx
        simp [Pool.contentOf, alookup_cons]
      · have hne : e ≠ x := Ne.symm hx
        simp only [Pool.contentOf, if_neg hx]
        simp only [alookup_cons, if_neg hne]
        cases hlx : alookup p.entityIdToIndex x with
        | none => simp
        | some j =>
          obtain ⟨hjlt, _⟩ := he2i _ (alookup_mem hlx)
          have : j ≠ p.size := by omega
          simp [this]

theorem pool_remove_spec {α : Type} {p : Pool α} (hp : PoolInv p)
    (e : Nat) :
    PoolInv (p.remove e) ∧
    ∀ x, (p.remove e).contentOf x =
      if x = e then none else p.contentOf x := by
  obtain ⟨hn1, hn2, he2i, hi2e, hdens, hl1, hl2⟩ := hp
  cases hcase : alookup p.entityIdToIndex e with
  | none =>
    rw [pool_remove_of_absent hcase]
    refine ⟨⟨hn1, hn2, he2i, hi2e, hdens, hl1, hl2⟩, ?_⟩
    intro x
    by_cases hx : x = e
    · subst hx
      simp [Pool.contentOf, hcase]
    · simp [hx]
  | some i =>
    obtain ⟨hilt, hi2e_i⟩ := he2i _ (alookup_mem hcase)
    have hpos : 0 < p.size := lt_of_le_of_lt (Nat.zero_le i) hilt
    have hdl : (alookup p.indexToEntityId (p.size - 1)).isSome = true :=
      hdens (p.size - 1) (by simp; omega)
    obtain ⟨y, hy⟩ := Option.isSome_iff_exists.mp hdl
    have hgetD : (alookup p.indexToEntityId (p.size - 1)).getD 0 = y := by
      rw [hy]
      rfl
    obtain ⟨hylt, he2i_y⟩ := hi2e _ (alookup_mem hy)
    rw [pool_remove_of_present hcase, hgetD]
    by_cases hye : y = e
    · -- the removed entry occupies the last slot; the swap is trivial
      subst hye
      have hi_last : i = p.size - 1 := by
        rw [hcase] at he2i_y
        exact Option.some.inj he2i_y
      have Le : ∀ x, alookup (aerase (aset p.entityIdToIndex y i) y) x =
          if x = y then none else alookup p.entityIdToIndex x := by
        intro x
        by_cases hx1 : x = y
        · subst hx1
          simp [alookup_aerase_self]
        · rw [alookup_aerase_ne _ hx1, alookup_aset_ne _ _ hx1]
          simp [hx1]
      have Li : ∀ j,
          alookup (aerase (aset p.indexToEntityId i y) (p.size - 1)) j =
          if j = i then none else alookup p.indexToEntityId j := by
        intro j
        by_cases hj1 : j = i
        · subst hj1
          rw [← hi_last]
          simp [alookup_aerase_self]
        · rw [alookup_aerase_ne _ (hi_last ▸ hj1), alookup_aset_ne _ _ hj1]
          simp [hj1]
      constructor
      · refine ⟨?_, ?_, ?_, ?_, ?_, ?_, ?_⟩
        · exact nodupKeys_aerase _ (nodupKeys_aset _ hn1)
        · exact nodupKeys_aerase _ (nodupKeys_aset _ hn2)
        · intro pr hpr
          obtain ⟨hpr1, hpr2⟩ := mem_aerase.mp hpr
          rcases mem_aset_nodup hn1 hpr1 with h1 | ⟨h1, h2⟩
          · exact absurd (congrArg Prod.fst h1) hpr2
          · obtain ⟨hlt, hl⟩ := he2i _ h1
            have hpi : pr.2 ≠ i := by
              intro hpi
              rw [hpi, hi2e_i] at hl
              exact hpr2 (Option.some.inj hl).symm
            refine ⟨by simp; omega, ?_⟩
            rw [Li]
            simp [hpi]
            exact hl
        · intro pr hpr
          obtain ⟨hpr1, hpr2⟩ := mem_aerase.mp hpr
          rcases mem_aset_nodup hn2 hpr1 with h1 | ⟨h1, h2⟩
          · rw [h1] at hpr2
            simp at hpr2
            exact absurd hi_last hpr2
          · obtain ⟨hlt, hl⟩ := hi2e _ h1
            have hpy : pr.2 ≠ y := by
              intro hpy
              rw [hpy, hcase] at hl
              exact h2 (Option.some.inj hl).symm
            refine ⟨by simp; omega, ?_⟩
            rw [Le]
            simp [hpy]
            exact hl
        · intro j hj
          simp at hj
          have hji : j ≠ i := by omega
          rw [Li]
          simp [hji]
          exact hdens j (by simp; omega)
        · have hstep1 : (aset p.entityIdToIndex y i).length =
              p.entityIdToIndex.length := length_aset_present hcase i
          have hstep2 :
              (aerase (aset p.entityIdToIndex y i) y).length + 1 =
              (aset p.entityIdToIndex y i).length :=
            length_aerase_present (nodupKeys_aset _ hn1)
              (alookup_aset_self _ _ _)
          simp
          omega
        · have hstep1 : (aset p.indexToEntityId i y).length =
              p.indexToEntityId.length := length_aset_present hi2e_i y
          have hpres : alookup (aset p.indexToEntityId i y) (p.size - 1) =
              some y := by
            rw [← hi_last]
            exact alookup_aset_self _ _ _
          have hstep2 :
              (aerase (aset p.indexToEntityId i y) (p.size - 1)).length + 1 =
              (aset p.indexToEntityId i y).length :=
            length_aerase_present (nodupKeys_aset _ hn2) hpres
          simp
          omega
      · intro x
        by_cases hx : x = y
        · subst hx
          simp only [Pool.contentOf]
          rw [Le]
          simp
        · simp only [Pool.contentOf, if_neg hx]
          rw [Le]
          simp only [if_neg hx]
          cases hlx : alookup p.entityIdToIndex x with
          | none => simp
          | some j =>
            obtain ⟨hjlt, hj⟩ := he2i _ (alookup_mem hlx)
            have hji : j ≠ i := by
              intro hji
              rw [hji, hi2e_i] at hj
              exact hx (Option.some.inj hj).symm
            simp [hji]
    · -- general case: the last entry is moved into the freed slot
      have hi_ne : i ≠ p.size - 1 := by
        intro hieq
        rw [hieq, hy] at hi2e_i
        exact hye (Option.some.inj hi2e_i)
      have Le : ∀ x, alookup (aerase (aset p.entityIdToIndex y i) e) x =
          if x = e then none
          else if x = y then some i else alookup p.entityIdToIndex x := by
        intro x
        by_cases hx1 : x = e
        · subst hx1
          simp [alookup_aerase_self]
        · rw [alookup_aerase_ne _ hx1]
          by_cases hx2 : x = y
          · subst hx2
            simp [alookup_aset_self, hx1]
          · rw [alookup_aset_ne _ _ hx2]
            simp [hx1, hx2]
      have Li : ∀ j,
          alookup (aerase (aset p.indexToEntityId i y) (p.size - 1)) j =
          if j = p.size - 1 then none
          else if j = i then some y else alookup p.indexToEntityId j := by
        intro j
        by_cases hj1 : j = p.size - 1
        · subst hj1
          simp [alookup_aerase_self]
        · rw [alookup_aerase_ne _ hj1]
          by_cases hj2 : j = i
          · subst hj2
            simp [alookup_aset_self, hj1]
          · rw [alookup_aset_ne _ _ hj2]
            simp [hj1, hj2]
      constructor
      · refine ⟨?_, ?_, ?_, ?_, ?_, ?_, ?_⟩
        · exact nodupKeys_aerase _ (nodupKeys_aset _ hn1)
        · exact nodupKeys_aerase _ (nodupKeys_aset _ hn2)
        · intro pr hpr
          obtain ⟨hpr1, hpr2⟩ := mem_aerase.mp hpr
          rcases mem_aset_nodup hn1 hpr1 with h1 | ⟨h1, h2⟩
          · subst h1
            refine ⟨by simp; omega, ?_⟩
            rw [Li]
            simp [hi_ne]
          · obtain ⟨hlt, hl⟩ := he2i _ h1
            have hplast : pr.2 ≠ p.size - 1 := by
              intro hp2
              rw [hp2, hy] at hl
              exact h2 (Option.some.inj hl).symm
            have hpi : pr.2 ≠ i := by
              intro hp2
              rw [hp2, hi2e_i] at hl
              exact hpr2 (Option.some.inj hl).symm
            refine ⟨by simp; omega, ?_⟩
            rw [Li]
            simp [hplast, hpi]
            exact hl
        · intro pr hpr
          obtain ⟨hpr1, hpr2⟩ := mem_aerase.mp hpr
          rcases mem_aset_nodup hn2 hpr1 with h1 | ⟨h1, h2⟩
          · subst h1
            refine ⟨by simp; omega, ?_⟩
            rw [Le]
            simp [hye]
          · obtain ⟨hlt, hl⟩ := hi2e _ h1
            have hpe : pr.2 ≠ e := by
              intro hp2
              rw [hp2, hcase] at hl
              exact h2 (Option.some.inj hl).symm
            have hpy : pr.2 ≠ y := by
              intro hp2
              rw [hp2, he2i_y] at hl
              exact hpr2 (Option.some.inj hl).symm
            refine ⟨by simp; omega, ?_⟩
            rw [Le]
            simp [hpe, hpy]
            exact hl
        · intro j hj
          simp at hj
          have hjlast : j ≠ p.size - 1 := by omega
          rw [Li]
          by_cases hji : j = i
          · simp [hjlast, hji, hi_ne]
          · simp [hjlast, hji]
            exact hdens j (by simp; omega)
        · have hstep1 : (aset p.entityIdToIndex y i).length =
              p.entityIdToIndex.length := length_aset_present he2i_y i
          have hpres : alookup (aset p.entityIdToIndex y i) e = some i := by
            rw [alookup_aset_ne _ _ (Ne.symm hye)]
            exact hcase
          have hstep2 :
              (aerase (aset p.entityIdToIndex y i) e).length + 1 =
              (aset p.entityIdToIndex y i).length :=
            length_aerase_present (nodupKeys_aset _ hn1) hpres
          simp
          omega
        · have hstep1 : (aset p.indexToEntityId i y).length =
              p.indexToEntityId.length := length_aset_present hi2e_i y
          have hpres2 : alookup (aset p.indexToEntityId i y) (p.size - 1) =
              some y := by
            rw [alookup_aset_ne _ _ (Ne.symm hi_ne)]
            exact hy
          have hstep2 :
              (aerase (aset p.indexToEntityId i y) (p.size - 1)).length + 1 =
              (aset p.indexToEntityId i y).length :=
            length_aerase_present (nodupKeys_aset _ hn2) hpres2
          simp
          omega
      · intro x
        by_cases hx1 : x = e
        · subst hx1
          simp only [Pool.contentOf]
          rw [Le]
          simp
        · simp only [Pool.contentOf, if_neg hx1]
          rw [Le]
          simp only [if_neg hx1]
          by_cases hx2 : x = y
          · subst hx2
            simp only [if_pos rfl, he2i_y]
            simp
          · simp only [if_neg hx2]
            cases hlx : alookup p.entityIdToIndex x with
            | none => simp
            | some j =>
              obtain ⟨hjlt, hj⟩ := he2i _ (alookup_mem hlx)
              have hji : j ≠ i := by
                intro hji
                rw [hji, hi2e_i] at hj
                exact hx1 (Option.some.inj hj).symm
              simp [hji]

/-- A pool mutation, for stating properties of arbitrary call sequences. -/
inductive PoolOp (α : Type) where
  | setOp (entityId : Nat) (object : α)
  | removeOp (entityId : Nat)

def applyPoolOp {α : Type} (p : Pool α) : PoolOp α → Pool α
  | .setOp e v => p.set e v
  | .removeOp e => p.remove e

def applyPoolOps {α : Type} (p : Pool α) (ops : List (PoolOp α)) : Pool α :=
  ops.foldl applyPoolOp p

/-- Specification-level content of the pool after a sequence of
operations: a plain finite map where `set` overwrites and `remove`
erases.  This follows the spec's words ("a mapping from entity-id to
component value") and is compared against the implementation. -/
def absPoolOp {α : Type} (m : List (Nat × α)) : PoolOp α → List (Nat × α)
  | .setOp e v => aset m e v
  | .removeOp e => aerase m e

def absPoolOps {α : Type} (m : List (Nat × α)) (ops : List (PoolOp α)) :
    List (Nat × α) :=
  ops.foldl absPoolOp m

theorem applyPoolOps_spec {α : Type} (ops : List (PoolOp α)) (p : Pool α)
    (m : List (Nat × α)) (hp : PoolInv p)
    (hm : ∀ x, p.contentOf x = alookup m x) :
    PoolInv (applyPoolOps p ops) ∧
    ∀ x, (applyPoolOps p ops).contentOf x =
      alookup (absPoolOps m ops) x := by
  induction ops generalizing p m with
  | nil => exact ⟨hp, hm⟩
  | cons op rest ih =>
    cases op with
    | setOp e v =>
      obtain ⟨h1, h2⟩ := pool_set_spec hp e v
      have hfold : applyPoolOps p (PoolOp.setOp e v :: rest) =
          applyPoolOps (p.set e v) rest := rfl
      have habs : absPoolOps m (PoolOp.setOp e v :: rest) =
          absPoolOps (aset m e v) rest := rfl
      rw [hfold, habs]
      refine ih _ _ h1 ?_
      intro x
      rw [h2 x]
      by_cases hx : x = e
      · subst hx
        rw [alookup_aset_self]
        simp
      · rw [alookup_aset_ne _ _ hx, if_neg hx]
        exact hm x
    | removeOp e =>
      obtain ⟨h1, h2⟩ := pool_remove_spec hp e
      have hfold : applyPoolOps p (PoolOp.removeOp e :: rest) =
          applyPoolOps (p.remove e) rest := rfl
      have habs : absPoolOps m (PoolOp.removeOp e :: rest) =
          absPoolOps (aerase m e) rest := rfl
      rw [hfold, habs]
      refine ih _ _ h1 ?_
      intro x
      rw [h2 x]
      by_cases hx : x = e
      · subst hx
        rw [alookup_aerase_self]
        simp
      · rw [alookup_aerase_ne _ hx, if_neg hx]
        exact hm x

/-- C4: after every sequence of `Pool::set` / `Pool::remove` operations
starting from an empty pool, `getSize()` equals the number of entity ids
currently present (the keys of `entityIdToIndex`, which stay duplicate
free), the two auxiliary maps are mutual inverses covering exactly the
present entities and exactly the dense slots `[0, size)` with no gaps
(all stated by `PoolInv`), and the stored values agree with the
specification-level finite map built by overwriting on `set` and erasing
on `remove`. -/
theorem pool_density_after_ops (α : Type) [Inhabited α]
    (ops : List (PoolOp α)) :
    PoolInv (applyPoolOps (Pool.init α) ops) ∧
    (applyPoolOps (Pool.init α) ops).getSize =
      ((applyPoolOps (Pool.init α) ops).entityIdToIndex.map
        Prod.fst).length ∧
    ∀ x, (applyPoolOps (Pool.init α) ops).contentOf x =
      alookup (absPoolOps [] ops) x := by
  obtain ⟨h1, h2⟩ := applyPoolOps_spec ops (Pool.init α) [] (poolInv_init α)
    (by intro x; simp [Pool.contentOf, Pool.init, alookup])
  refine ⟨h1, ?_, h2⟩
  obtain ⟨-, -, -, -, -, hlen, -⟩ := h1
  rw [Pool.getSize, ← hlen]
  simp

/-- C5: removing entity `X` from a pool that also contains `Y` in the last
dense slot leaves `Y` retrievable with its original value and removes
`X`; removing an absent entity id `Z` is a no-op that leaves the pool
unchanged. -/
theorem pool_swap_remove_correct {α : Type} (p : Pool α) (X Y iX Z : Nat)
    (hp : PoolInv p)
    (hX : alookup p.entityIdToIndex X = some iX)
    (hY : alookup p.entityIdToIndex Y = some (p.size - 1))
    (hXY : X ≠ Y)
    (hZ : alookup p.entityIdToIndex Z = none) :
    (p.remove X).get Y = p.get Y ∧
    ((p.remove X).contentOf Y).isSome = true ∧
    (p.remove X).contentOf X = none ∧
    p.remove Z = p := by
  obtain ⟨hinv, hcontent⟩ := pool_remove_spec hp X
  have h1 := hcontent Y
  rw [if_neg (Ne.symm hXY)] at h1
  have hXnone := hcontent X
  rw [if_pos rfl] at hXnone
  have holdY : p.contentOf Y = some (p.data (p.size - 1)) := by
    unfold Pool.contentOf
    rw [hY]
    rfl
  rw [holdY] at h1
  cases hly : alookup (p.remove X).entityIdToIndex Y with
  | none =>
    unfold Pool.contentOf at h1
    rw [hly] at h1
    exact absurd h1 (by simp)
  | some j =>
    unfold Pool.contentOf at h1
    rw [hly] at h1
    simp at h1
    refine ⟨?_, ?_, hXnone, pool_remove_of_absent hZ⟩
    · unfold Pool.get
      rw [hly, hY]
      simpa using h1
    · unfold Pool.contentOf
      rw [hly]
      simp

/-- Concrete pool used by the C5 witness: entities 1 and 2 with values
10 and 20; entity 2 occupies the last dense slot. -/
def demoPool : Pool Nat :=
  applyPoolOps (Pool.init Nat) [PoolOp.setOp 1 10, PoolOp.setOp 2 20]

theorem pool_swap_remove_correct_witness :
    (demoPool.remove 1).get 2 = demoPool.get 2 ∧
    ((demoPool.remove 1).contentOf 2).isSome = true ∧
    (demoPool.remove 1).contentOf 1 = none ∧
    demoPool.remove 5 = demoPool :=
  pool_swap_remove_correct demoPool 1 2 0 5 (by decide) (by decide)
    (by decide) (by decide) (by decide)

----------------------------------------------------------------------------
-- System and Coordinator (ECS.h / ECS.cpp)
----------------------------------------------------------------------------

/-- A `System`: its required component signature and the ordered list of
member entities (`std::vector<Entity>`). -/
structure System where
  componentSignature : Nat
  entities : List Nat
  deriving DecidableEq

/-- `System::addEntityToSystem` (ECS.cpp lines 14-16): `push_back`. -/
def System.addEntityToSystem (s : System) (entity : Nat) : System :=
  { s with entities := s.entities ++ [entity] }

/-- `System::removeEntityToSystem` (ECS.cpp lines 18-29): erase-remove of
every element with the same id. -/
def System.removeEntityToSystem (s : System) (entity : Nat) : System :=
  { s with entities := s.entities.filter (fun x => decide (x ≠ entity)) }

/-- `System::getSystemEntities` (ECS.cpp lines 31-33). -/
def System.getSystemEntities (s : System) : List Nat := s.entities

/-- The signature matching test of `Coordinator::addEntityToSystems`
(ECS.cpp line 89): `(entitySig & systemSig) == systemSig`. -/
def sigMatch (entitySig systemSig : Nat) : Bool :=
  decide (Nat.land entitySig systemSig = systemSig)

/-- The `Coordinator` state (ECS.h lines 464-503), fields in declaration
order.  `V` is the component value type (the claims never mix values of
different component types in one pool, so one value type suffices);
`componentPools` is indexed by component id with `none` for a null
`shared_ptr`; systems are keyed by a numeric stand-in for
`std::type_index`. -/
structure Coordinator (V : Type) where
  numEntites : Nat
  entitiesToBeCreated : List Nat
  entitiesToBeDestroyed : List Nat
  freeIds : List Nat
  componentPools : List (Option (Pool V))
  systems : List (Nat × System)
  entityComponentSignatures : List Nat
  entityPerTag : List (String × Nat)
  tagPerEntityId : List (Nat × String)
  entitiesPerGroup : List (String × List Nat)
  groupsPerEntityId : List (Nat × List String)

/-- A freshly constructed coordinator: every container empty. -/
def Coordinator.init (V : Type) : Coordinator V :=
  ⟨0, [], [], [], [], [], [], [], [], [], []⟩

/-- Read an entity's signature (`entityComponentSignatures[id]`); reads
beyond the vector's size are undefined behaviour in C++ and modelled
as 0. -/
def sigGet {V : Type} (s : Coordinator V) (id : Nat) : Nat :=
  s.entityComponentSignatures.getD id 0

/-- `Coordinator::create` (ECS.cpp lines 50-70): recycle the front of the
FIFO free-list if possible, otherwise mint `numEntites++`, doubling the
signature vector (2 when empty) whenever the new id would not fit; the
new entity joins the pending-creation set. -/
def Coordinator.create {V : Type} (s : Coordinator V) :
    Nat × Coordinator V :=
  match s.freeIds with
  | [] =>
    let entityId := s.numEntites
    let sigs := s.entityComponentSignatures
    let sigs2 :=
      if sigs.length ≤ entityId then
        let newSize := if sigs.length = 0 then 2 else 2 * sigs.length
        sigs ++ List.replicate (newSize - sigs.length) 0
      else sigs
    (entityId,
      { s with
        numEntites := entityId + 1
        entityComponentSignatures := sigs2
        entitiesToBeCreated := sinsert s.entitiesToBeCreated entityId })
  | f :: rest =>
    (f,
      { s with
        freeIds := rest
        entitiesToBeCreated := sinsert s.entitiesToBeCreated f })

/-- `Coordinator::destroy` (ECS.cpp lines 72-74). -/
def Coordinator.destroy {V : Type} (s : Coordinator V) (entity : Nat) :
    Coordinator V :=
  { s with entitiesToBeDestroyed := sinsert s.entitiesToBeDestroyed entity }

/-- `Coordinator::addEntityToSystems` (ECS.cpp lines 76-94): bail out on
an out-of-range id, otherwise add the entity to every system whose
required signature is covered by the entity's signature. -/
def Coordinator.addEntityToSystems {V : Type} (s : Coordinator V)
    (entity : Nat) : Coordinator V :=
  if s.entityComponentSignatures.length ≤ entity then s
  else
    { s with systems := s.systems.map (fun kv =>
        if sigMatch (sigGet s entity) kv.2.componentSignature then
          (kv.1, kv.2.addEntityToSystem entity)
        else kv) }

/-- `Coordinator::removeEntityFromSystems` (ECS.cpp lines 96-100). -/
def Coordinator.removeEntityFromSystems {V : Type} (s : Coordinator V)
    (entity : Nat) : Coordinator V :=
  { s with systems := s.systems.map (fun kv =>
      (kv.1, kv.2.removeEntityToSystem entity)) }

/-- `Coordinator::tagEntity` (ECS.cpp lines 102-112): both `emplace`
calls run only when the tag itself is unbound; the entity-side `emplace`
silently does nothing when the entity already holds a tag. -/
def Coordinator.tagEntity {V : Type} (s : Coordinator V) (entity : Nat)
    (tag : String) : Coordinator V :=
  if (alookup s.entityPerTag tag).isSome then s
  else
    { s with
      entityPerTag := aemplace s.entityPerTag tag entity
      tagPerEntityId := aemplace s.tagPerEntityId entity tag }

/-- `Coordinator::entityHasTag` (ECS.cpp lines 114-120). -/
def Coordinator.entityHasTag {V : Type} (s : Coordinator V) (entity : Nat)
    (tag : String) : Bool :=
  match alookup s.entityPerTag tag with
  | some e => e == entity
  | none => false

/-- `Coordinator::getEntityByTag` (ECS.cpp lines 122-127). -/
def Coordinator.getEntityByTag {V : Type} (s : Coordinator V)
    (tag : String) : Option Nat :=
  alookup s.entityPerTag tag

/-- `Coordinator::removeEntityTag` (ECS.cpp lines 129-140). -/
def Coordinator.removeEntityTag {V : Type} (s : Coordinator V)
    (entity : Nat) : Coordinator V :=
  match alookup s.tagPerEntityId entity with
  | none => s
  | some tag =>
    { s with
      tagPerEntityId := aerase s.tagPerEntityId entity
      entityPerTag := aerase s.entityPerTag tag }

/-- `Coordinator::removeTag` (ECS.cpp lines 142-148). -/
def Coordinator.removeTag {V : Type} (s : Coordinator V) (tag : String) :
    Coordinator V :=
  match alookup s.entityPerTag tag with
  | none => s
  | some entity =>
    { s with
      entityPerTag := aerase s.entityPerTag tag
      tagPerEntityId := aerase s.tagPerEntityId entity }

/-- `Coordinator::groupEntity` (ECS.cpp lines 150-160): lazily create both
side containers, then insert into each set. -/
def Coordinator.groupEntity {V : Type} (s : Coordinator V) (entity : Nat)
    (group : String) : Coordinator V :=
  let epg := aemplace s.entitiesPerGroup group []
  let gpe := aemplace s.groupsPerEntityId entity []
  { s with
    entitiesPerGroup :=
      aset epg group (sinsert ((alookup epg group).getD []) entity)
    groupsPerEntityId :=
      aset gpe entity (dinsert ((alookup gpe entity).getD []) group) }

/-- `Coordinator::entityBelongsToGroup` (ECS.cpp lines 162-168). -/
def Coordinator.entityBelongsToGroup {V : Type} (s : Coordinator V)
    (entity : Nat) (group : String) : Bool :=
  match alookup s.entitiesPerGroup group with
  | none => false
  | some es => decide (entity ∈ es)

/-- `Coordinator::getEntitiesByGroup` (ECS.cpp lines 170-177). -/
def Coordinator.getEntitiesByGroup {V : Type} (s : Coordinator V)
    (group : String) : List Nat :=
  (alookup s.entitiesPerGroup group).getD []

/-- `Coordinator::removeEntityGroup` (ECS.cpp lines 179-202).  Returns
`none` when `entitiesPerGroup.at(group)` throws `std::out_of_range`,
which happens whenever the entity is registered in some group but the
requested group has no member set — the reference is taken before the
membership check. -/
def Coordinator.removeEntityGroup {V : Type} (s : Coordinator V)
    (entity : Nat) (group : String) : Option (Coordinator V) :=
  match alookup s.groupsPerEntityId entity with
  | none => some s
  | some entityGroups =>
    match alookup s.entitiesPerGroup group with
    | none => none
    | some groupEntities =>
      if group ∈ entityGroups then
        let entityGroups2 := serase entityGroups group
        let groupEntities2 := serase groupEntities entity
        some { s with
          groupsPerEntityId :=
            if entityGroups2 = [] then aerase s.groupsPerEntityId entity
            else aset s.groupsPerEntityId entity entityGroups2
          entitiesPerGroup :=
            if groupEntities2 = [] then aerase s.entitiesPerGroup group
            else aset s.entitiesPerGroup group groupEntities2 }
      else some s

/-- The loop of `Coordinator::removeEntityGroups`: erase the entity from
each of its groups in turn, pruning member sets that become empty;
`entitiesPerGroup.at(group)` throwing is `none`. -/
def eraseFromGroups (m : List (String × List Nat)) (entity : Nat) :
    List String → Option (List (String × List Nat))
  | [] => some m
  | g :: rest =>
    match alookup m g with
    | none => none
    | some es =>
      let es2 := serase es entity
      eraseFromGroups (if es2 = [] then aerase m g else aset m g es2)
        entity rest

/-- `Coordinator::removeEntityGroups` (ECS.cpp lines 204-215). -/
def Coordinator.removeEntityGroups {V : Type} (s : Coordinator V)
    (entity : Nat) : Option (Coordinator V) :=
  match alookup s.groupsPerEntityId entity with
  | none => some s
  | some entityGroups =>
    match eraseFromGroups s.entitiesPerGroup entity entityGroups with
    | none => none
    | some epg =>
      some { s with
        entitiesPerGroup := epg
        groupsPerEntityId := aerase s.groupsPerEntityId entity }

/-- `Coordinator::addComponent<T>` (part_001 lines 562-595): grow the
pool vector to `componentId + 1` slots when needed, lazily allocate the
pool, store the constructed value, and set the signature bit.  The
signature write through `operator[]` is undefined behaviour when the
entity id is not below the signature vector's size; the model makes that
case a no-op. -/
def Coordinator.addComponent {V : Type} [Inhabited V] (s : Coordinator V)
    (entity componentId : Nat) (v : V) : Coordinator V :=
  let pools0 :=
    if s.componentPools.length ≤ componentId then
      s.componentPools ++
        List.replicate (componentId + 1 - s.componentPools.length) none
    else s.componentPools
  let pools1 :=
    if (pools0.getD componentId none).isNone then
      pools0.set componentId (some (Pool.init V))
    else pools0
  let pool := (pools1.getD componentId none).getD (Pool.init V)
  { s with
    componentPools := pools1.set componentId (some (pool.set entity v))
    entityComponentSignatures :=
      s.entityComponentSignatures.set entity
        (Nat.lor (sigGet s entity) (Nat.shiftLeft 1 componentId)) }

/-- `Coordinator::hasComponent<T>`: a signature bit test (part_001 lines
615-620). -/
def Coordinator.hasComponent {V : Type} (s : Coordinator V)
    (entity componentId : Nat) : Bool :=
  (sigGet s entity).testBit componentId

/-- `Coordinator::addSystem<TSystem>` (part_001 lines 632-637): construct
a fresh system (empty membership; the signature fixed by the
constructor's `requireComponent` calls) and `insert` it into the
type-keyed map — `std::unordered_map::insert` does not overwrite an
existing key. -/
def Coordinator.addSystem {V : Type} (s : Coordinator V)
    (typeKey requiredSignature : Nat) : Coordinator V :=
  { s with systems := aemplace s.systems typeKey ⟨requiredSignature, []⟩ }

/-- `Coordinator::hasSystem<TSystem>` (part_001 lines 647-650). -/
def Coordinator.hasSystem {V : Type} (s : Coordinator V) (typeKey : Nat) :
    Bool :=
  (alookup s.systems typeKey).isSome

/-- `Coordinator::getSystem<TSystem>` (part_001 lines 652-657), made
total by returning an `Option`. -/
def Coordinator.getSystem {V : Type} (s : Coordinator V) (typeKey : Nat) :
    Option System :=
  alookup s.systems typeKey

/-- The creation flush: the first loop of `Coordinator::update` (ECS.cpp
lines 231-234), followed by clearing the pending-creation set. -/
def flushCreated {V : Type} (s : Coordinator V) : Coordinator V :=
  { s.entitiesToBeCreated.foldl Coordinator.addEntityToSystems s with
    entitiesToBeCreated := [] }

/-- One iteration of the destruction loop of `Coordinator::update`
(ECS.cpp lines 236-256): remove from all systems, reset the signature,
remove from every allocated pool, append the id to the free-list, and
purge the tag and all group memberships. -/
def destroyOne {V : Type} (s : Coordinator V) (entity : Nat) :
    Option (Coordinator V) :=
  let s1 := s.removeEntityFromSystems entity
  let s2 := { s1 with entityComponentSignatures :=
    s1.entityComponentSignatures.set entity 0 }
  let s3 := { s2 with componentPools :=
    s2.componentPools.map (Option.map (fun p => Pool.remove p entity)) }
  let s4 := { s3 with freeIds := s3.freeIds ++ [entity] }
  (s4.removeEntityTag entity).removeEntityGroups entity

/-- `Coordinator::update` (ECS.cpp lines 230-258). -/
def Coordinator.update {V : Type} (s : Coordinator V) :
    Option (Coordinator V) :=
  let s1 := flushCreated s
  match List.foldlM destroyOne s1 s1.entitiesToBeDestroyed with
  | none => none
  | some s2 => some { s2 with entitiesToBeDestroyed := [] }

----------------------------------------------------------------------------
-- Invariants
----------------------------------------------------------------------------

/-- `PoolInv` lifted to an optional pool (`none` is a null pool pointer,
which `update` skips). -/
def OptionPoolInv {V : Type} : Option (Pool V) → Prop
  | none => True
  | some q => PoolInv q

instance {V : Type} (op : Option (Pool V)) : Decidable (OptionPoolInv op) :=
  match op with
  | none => isTrue trivial
  | some q => (inferInstance : Decidable (PoolInv q))

/-- Every allocated component pool satisfies its representation
invariant. -/
def PoolsInv {V : Type} (s : Coordinator V) : Prop :=
  ∀ op ∈ s.componentPools, OptionPoolInv op

/-- Mutual-inverse invariant of the tag index maps. -/
def TagInv {V : Type} (s : Coordinator V) : Prop :=
  (∀ pr ∈ s.entityPerTag, alookup s.tagPerEntityId pr.2 = some pr.1) ∧
  (∀ pr ∈ s.tagPerEntityId, alookup s.entityPerTag pr.2 = some pr.1)

/-- Mutual-consistency invariant of the group index: duplicate-free map
keys, duplicate-free per-entity group sets, and the two maps record
exactly the same memberships. -/
def GroupInv {V : Type} (s : Coordinator V) : Prop :=
  NodupKeys s.entitiesPerGroup ∧ NodupKeys s.groupsPerEntityId ∧
  (∀ pr ∈ s.groupsPerEntityId, pr.2.Nodup) ∧
  (∀ pr ∈ s.entitiesPerGroup, ∀ x ∈ pr.2,
    pr.1 ∈ (alookup s.groupsPerEntityId x).getD []) ∧
  (∀ pr ∈ s.groupsPerEntityId, ∀ g ∈ pr.2,
    pr.1 ∈ (alookup s.entitiesPerGroup g).getD [])

/-- The combined coordinator invariant assumed by the flush theorems. -/
def Invs {V : Type} (s : Coordinator V) : Prop :=
  PoolsInv s ∧ TagInv s ∧ GroupInv s

instance {V : Type} (s : Coordinator V) : Decidable (PoolsInv s) := by
  unfold PoolsInv
  exact inferInstance

instance {V : Type} (s : Coordinator V) : Decidable (TagInv s) := by
  unfold TagInv
  exact inferInstance

instance {V : Type} (s : Coordinator V) : Decidable (GroupInv s) := by
  unfold GroupInv NodupKeys
  exact inferInstance

instance {V : Type} (s : Coordinator V) : Decidable (Invs s) := by
  unfold Invs
  exact inferInstance

/-- An optional pool that stores nothing for entity `id`. -/
def OptionPoolFree {V : Type} (id : Nat) : Option (Pool V) → Prop
  | none => True
  | some q => alookup q.entityIdToIndex id = none

instance {V : Type} (id : Nat) (op : Option (Pool V)) :
    Decidable (OptionPoolFree id op) :=
  match op with
  | none => isTrue trivial
  | some q =>
    (inferInstance : Decidable (alookup q.entityIdToIndex id = none))

/-- Entity id `id` carries no residual state: empty signature, present
in no allocated pool, no tag binding on either side, and no group
membership on either side. -/
def CleanId {V : Type} (s : Coordinator V) (id : Nat) : Prop :=
  sigGet s id = 0 ∧
  (∀ op ∈ s.componentPools, OptionPoolFree id op) ∧
  alookup s.tagPerEntityId id = none ∧
  (∀ pr ∈ s.entityPerTag, pr.2 ≠ id) ∧
  alookup s.groupsPerEntityId id = none ∧
  (∀ pr ∈ s.entitiesPerGroup, id ∉ pr.2)

instance {V : Type} (s : Coordinator V) (id : Nat) :
    Decidable (CleanId s id) := by
  unfold CleanId
  exact inferInstance

/-- Entity id `id` is in no registered system's entity list. -/
def SysAbsent {V : Type} (s : Coordinator V) (id : Nat) : Prop :=
  ∀ kv ∈ s.systems, id ∉ kv.2.entities

instance {V : Type} (s : Coordinator V) (id : Nat) :
    Decidable (SysAbsent s id) := by
  unfold SysAbsent
  exact inferInstance

----------------------------------------------------------------------------
-- Small list lemmas
----------------------------------------------------------------------------

theorem getD_set_self {γ : Type} (l : List γ) (i : Nat) (v d : γ)
    (h : i < l.length) : (l.set i v).getD i d = v := by
  induction l generalizing i with
  | nil => simp at h
  | cons hd tl ih =>
    cases i with
    | zero => simp [List.getD]
    | succ n =>
      simp at h
      simp only [List.set, List.getD, List.getElem?_cons_succ]
      exact ih n h

theorem getD_set_ne {γ : Type} (l : List γ) (i j : Nat) (v d : γ)
    (h : i ≠ j) : (l.set i v).getD j d = l.getD j d := by
  induction l generalizing i j with
  | nil => simp
  | cons hd tl ih =>
    cases i with
    | zero =>
      cases j with
      | zero => exact absurd rfl h
      | succ m => simp [List.getD]
    | succ n =>
      cases j with
      | zero => simp [List.getD]
      | succ m =>
        simp only [List.set, List.getD, List.getElem?_cons_succ]
        exact ih n m (by omega)

theorem getD_replicate_zero (n i : Nat) :
    (List.replicate n 0).getD i 0 = 0 := by
  induction n generalizing i with
  | zero => simp [List.getD]
  | succ m ih =>
    cases i with
    | zero => simp [List.replicate, List.getD]
    | succ k =>
      simp only [List.replicate, List.getD, List.getElem?_cons_succ]
      exact ih k

theorem getD_append_zero (l : List Nat) (n i : Nat) :
    (l ++ List.replicate n 0).getD i 0 = l.getD i 0 := by
  induction l generalizing i with
  | nil => simpa using getD_replicate_zero n i
  | cons hd tl ih =>
    cases i with
    | zero => simp [List.getD]
    | succ k =>
      simp only [List.cons_append, List.getD, List.getElem?_cons_succ]
      exact ih k

theorem alookup_map_value {κ β γ : Type} [DecidableEq κ]
    (l : List (κ × β)) (f : β → γ) (k : κ) :
    alookup (l.map (fun kv => (kv.1, f kv.2))) k = (alookup l k).map f := by
  induction l with
  | nil => simp [alookup]
  | cons hd tl ih =>
    obtain ⟨a, b⟩ := hd
    by_cases hk : a = k
    · simp [alookup, hk]
    · simp [alookup, hk, ih]

theorem alookup_map_pair {κ β γ : Type} [DecidableEq κ]
    (l : List (κ × β)) (F : κ × β → γ) (k : κ) :
    alookup (l.map (fun kv => (kv.1, F kv))) k =
      (alookup l k).map (fun v => F (k, v)) := by
  induction l with
  | nil => simp [alookup]
  | cons hd tl ih =>
    obtain ⟨a, b⟩ := hd
    by_cases hk : a = k
    · subst hk
      simp [alookup]
    · simp [alookup, hk, ih]

theorem alookup_aerase_none {κ β : Type} [DecidableEq κ]
    {l : List (κ × β)} {k c : κ} (h : alookup l c = none) :
    alookup (aerase l k) c = none := by
  by_cases hck : c = k
  · subst hck
    exact alookup_aerase_self l c
  · rw [alookup_aerase_ne _ hck]
    exact h

----------------------------------------------------------------------------
-- Tag operations
----------------------------------------------------------------------------

theorem removeEntityTag_fields {V : Type} (s : Coordinator V) (e : Nat) :
    (s.removeEntityTag e).numEntites = s.numEntites ∧
    (s.removeEntityTag e).entitiesToBeCreated = s.entitiesToBeCreated ∧
    (s.removeEntityTag e).entitiesToBeDestroyed = s.entitiesToBeDestroyed ∧
    (s.removeEntityTag e).freeIds = s.freeIds ∧
    (s.removeEntityTag e).componentPools = s.componentPools ∧
    (s.removeEntityTag e).systems = s.systems ∧
    (s.removeEntityTag e).entityComponentSignatures =
      s.entityComponentSignatures ∧
    (s.removeEntityTag e).entitiesPerGroup = s.entitiesPerGroup ∧
    (s.removeEntityTag e).groupsPerEntityId = s.groupsPerEntityId := by
  unfold Coordinator.removeEntityTag
  cases alookup s.tagPerEntityId e <;> simp

theorem removeEntityTag_spec {V : Type} {s : Coordinator V}
    (htag : TagInv s) (e : Nat) :
    TagInv (s.removeEntityTag e) ∧
    alookup (s.removeEntityTag e).tagPerEntityId e = none ∧
    (∀ pr ∈ (s.removeEntityTag e).entityPerTag, pr.2 ≠ e) ∧
    (∀ pr ∈ (s.removeEntityTag e).entityPerTag, pr ∈ s.entityPerTag) ∧
    (∀ c, alookup s.tagPerEntityId c = none →
      alookup (s.removeEntityTag e).tagPerEntityId c = none) := by
  obtain ⟨hd1, hd2⟩ := htag
  cases hcase : alookup s.tagPerEntityId e with
  | none =>
    unfold Coordinator.removeEntityTag
    rw [hcase]
    refine ⟨⟨hd1, hd2⟩, hcase, ?_, fun pr hpr => hpr, fun c hc => hc⟩
    intro pr hpr hpe
    rw [← hpe] at hcase
    rw [hd1 pr hpr] at hcase
    exact Option.noConfusion hcase
  | some tg =>
    have hshape : s.removeEntityTag e =
        { s with
          tagPerEntityId := aerase s.tagPerEntityId e
          entityPerTag := aerase s.entityPerTag tg } := by
      unfold Coordinator.removeEntityTag
      rw [hcase]
    rw [hshape]
    have hept : alookup s.entityPerTag tg = some e := hd2 _ (alookup_mem hcase)
    refine ⟨⟨?_, ?_⟩, alookup_aerase_self _ _, ?_, ?_, ?_⟩
    · intro pr hpr
      obtain ⟨hpr1, hpr2⟩ := mem_aerase.mp hpr
      have hpe : pr.2 ≠ e := by
        intro hpe
        have := hd1 _ hpr1
        rw [hpe, hcase] at this
        exact hpr2 (Option.some.inj this).symm
      rw [alookup_aerase_ne _ hpe]
      exact hd1 _ hpr1
    · intro pr hpr
      obtain ⟨hpr1, hpr2⟩ := mem_aerase.mp hpr
      have hpt : pr.2 ≠ tg := by
        intro hpt
        have := hd2 _ hpr1
        rw [hpt, hept] at this
        exact hpr2 (Option.some.inj this).symm
      rw [alookup_aerase_ne _ hpt]
      exact hd2 _ hpr1
    · intro pr hpr hpe
      obtain ⟨hpr1, hpr2⟩ := mem_aerase.mp hpr
      have := hd1 _ hpr1
      rw [hpe, hcase] at this
      exact hpr2 (Option.some.inj this).symm
    · intro pr hpr
      exact (mem_aerase.mp hpr).1
    · intro c hc
      exact alookup_aerase_none hc

----------------------------------------------------------------------------
-- Group operations
----------------------------------------------------------------------------

theorem eraseFromGroups_spec (e : Nat) (gs : List String)
    (m : List (String × List Nat)) (hn : NodupKeys m) (hgs : gs.Nodup)
    (hpresent : ∀ g ∈ gs, (alookup m g).isSome = true) :
    ∃ m2, eraseFromGroups m e gs = some m2 ∧
      NodupKeys m2 ∧
      (∀ g ∈ gs, ∀ es, alookup m g = some es →
        alookup m2 g =
          if serase es e = [] then none else some (serase es e)) ∧
      (∀ g, g ∉ gs → alookup m2 g = alookup m g) ∧
      (∀ pr ∈ m2, ∃ pr0 ∈ m, pr.1 = pr0.1 ∧ ∀ x ∈ pr.2, x ∈ pr0.2) := by
  induction gs generalizing m with
  | nil =>
    refine ⟨m, rfl, hn, by simp, fun g _ => rfl, ?_⟩
    intro pr hpr
    exact ⟨pr, hpr, rfl, fun x hx => hx⟩
  | cons g rest ih =>
    obtain ⟨es, hes⟩ :=
      Option.isSome_iff_exists.mp (hpresent g (List.mem_cons_self _ _))
    obtain ⟨hgrest, hrestnd⟩ := List.nodup_cons.mp hgs
    have hstep : eraseFromGroups m e (g :: rest) =
        eraseFromGroups
          (if serase es e = [] then aerase m g else aset m g (serase es e))
          e rest := by
      simp only [eraseFromGroups]
      rw [hes]
    have hm1nodup : NodupKeys
        (if serase es e = [] then aerase m g
         else aset m g (serase es e)) := by
      by_cases hemp : serase es e = []
      · simp only [if_pos hemp]
        exact nodupKeys_aerase _ hn
      · simp only [if_neg hemp]
        exact nodupKeys_aset _ hn
    have hm1g : alookup
        (if serase es e = [] then aerase m g
         else aset m g (serase es e)) g =
        (if serase es e = [] then none else some (serase es e)) := by
      by_cases hemp : serase es e = []
      · simp only [if_pos hemp]
        exact alookup_aerase_self _ _
      · simp only [if_neg hemp]
        exact alookup_aset_self _ _ _
    have hm1ne : ∀ c, c ≠ g → alookup
        (if serase es e = [] then aerase m g
         else aset m g (serase es e)) c = alookup m c := by
      intro c hc
      by_cases hemp : serase es e = []
      · simp only [if_pos hemp]
        exact alookup_aerase_ne _ hc
      · simp only [if_neg hemp]
        exact alookup_aset_ne _ _ hc
    have hm1present : ∀ g2 ∈ rest, (alookup
        (if serase es e = [] then aerase m g
         else aset m g (serase es e)) g2).isSome = true := by
      intro g2 hg2
      have hne : g2 ≠ g := by
        intro hgg
        exact hgrest (hgg ▸ hg2)
      rw [hm1ne g2 hne]
      exact hpresent g2 (List.mem_cons_of_mem _ hg2)
    have hm1sub : ∀ pr ∈
        (if serase es e = [] then aerase m g
         else aset m g (serase es e)),
        ∃ pr0 ∈ m, pr.1 = pr0.1 ∧ ∀ x ∈ pr.2, x ∈ pr0.2 := by
      intro pr hpr
      by_cases hemp : serase es e = []
      · rw [if_pos hemp] at hpr
        exact ⟨pr, (mem_aerase.mp hpr).1, rfl, fun x hx => hx⟩
      · rw [if_neg hemp] at hpr
        rcases mem_aset_of_mem hpr with h1 | h1
        · refine ⟨(g, es), alookup_mem hes, by rw [h1], ?_⟩
          intro x hx
          rw [h1] at hx
          exact (mem_serase.mp hx).1
        · exact ⟨pr, h1, rfl, fun x hx => hx⟩
    obtain ⟨m2, hrun, hnd2, hin, hout, hsub⟩ :=
      ih _ hm1nodup hrestnd hm1present
    refine ⟨m2, by rw [hstep]; exact hrun, hnd2, ?_, ?_, ?_⟩
    · intro g2 hg2 es2 hes2
      rcases List.mem_cons.mp hg2 with rfl | hg2r
      · rw [hes] at hes2
        obtain rfl := Option.some.inj hes2
        rw [hout g2 hgrest, hm1g]
      · have hne : g2 ≠ g := by
          intro hgg
          exact hgrest (hgg ▸ hg2r)
        refine hin g2 hg2r es2 ?_
        rw [hm1ne g2 hne]
        exact hes2
    · intro c hc
      have hc1 : c ≠ g := by
        intro hcg
        exact hc (hcg ▸ List.mem_cons_self _ _)
      have hc2 : c ∉ rest := fun hcr => hc (List.mem_cons_of_mem _ hcr)
      rw [hout c hc2, hm1ne c hc1]
    · intro pr hpr
      obtain ⟨pr1, hpr1, heq1, hsub1⟩ := hsub pr hpr
      obtain ⟨pr0, hpr0, heq0, hsub0⟩ := hm1sub pr1 hpr1
      exact ⟨pr0, hpr0, heq1.trans heq0, fun x hx => hsub0 x (hsub1 x hx)⟩

theorem removeEntityGroups_spec {V : Type} {s : Coordinator V}
    (hg : GroupInv s) (e : Nat) :
    ∃ t, s.removeEntityGroups e = some t ∧
      GroupInv t ∧
      alookup t.groupsPerEntityId e = none ∧
      (∀ pr ∈ t.entitiesPerGroup, e ∉ pr.2) ∧
      (∀ pr ∈ t.entitiesPerGroup, ∃ pr0 ∈ s.entitiesPerGroup,
        pr.1 = pr0.1 ∧ ∀ x ∈ pr.2, x ∈ pr0.2) ∧
      (∀ c, alookup s.groupsPerEntityId c = none →
        alookup t.groupsPerEntityId c = none) ∧
      t.numEntites = s.numEntites ∧
      t.entitiesToBeCreated = s.entitiesToBeCreated ∧
      t.entitiesToBeDestroyed = s.entitiesToBeDestroyed ∧
      t.freeIds = s.freeIds ∧
      t.componentPools = s.componentPools ∧
      t.systems = s.systems ∧
      t.entityComponentSignatures = s.entityComponentSignatures ∧
      t.entityPerTag = s.entityPerTag ∧
      t.tagPerEntityId = s.tagPerEntityId := by
  obtain ⟨hnd1, hnd2, hvnd, hdir1, hdir2⟩ := hg
  cases hc : alookup s.groupsPerEntityId e with
  | none =>
    have hshape : s.removeEntityGroups e = some s := by
      unfold Coordinator.removeEntityGroups
      rw [hc]
    refine ⟨s, hshape, ⟨hnd1, hnd2, hvnd, hdir1, hdir2⟩, hc, ?_,
      (fun pr hpr => ⟨pr, hpr, rfl, fun x hx => hx⟩),
      (fun c h2 => h2), rfl, rfl, rfl, rfl, rfl, rfl, rfl, rfl, rfl⟩
    intro pr hpr hein
    have := hdir1 pr hpr e hein
    rw [hc] at this
    simp at this
  | some gs =>
    have hegs : (e, gs) ∈ s.groupsPerEntityId := alookup_mem hc
    have hgsnd : gs.Nodup := hvnd _ hegs
    have hpresent : ∀ g ∈ gs,
        (alookup s.entitiesPerGroup g).isSome = true := by
      intro g hgin
      cases hlk : alookup s.entitiesPerGroup g with
      | none =>
        have := hdir2 _ hegs g hgin
        rw [hlk] at this
        simp at this
      | some es => rfl
    obtain ⟨m2, hrun, hm2nd, hin, hout, hsub⟩ :=
      eraseFromGroups_spec e gs s.entitiesPerGroup hnd1 hgsnd hpresent
    have hshape : s.removeEntityGroups e = some
        { s with
          entitiesPerGroup := m2
          groupsPerEntityId := aerase s.groupsPerEntityId e } := by
      simp only [Coordinator.removeEntityGroups, hc, hrun]
    have he_notin : ∀ pr ∈ m2, e ∉ pr.2 := by
      intro pr hpr hein
      have hlook2 : alookup m2 pr.1 = some pr.2 :=
        alookup_of_mem_nodup hm2nd hpr
      by_cases hgin : pr.1 ∈ gs
      · obtain ⟨es, hes⟩ :=
          Option.isSome_iff_exists.mp (hpresent pr.1 hgin)
        have := hin pr.1 hgin es hes
        rw [hlook2] at this
        by_cases hemp : serase es e = []
        · rw [if_pos hemp] at this
          exact Option.noConfusion this
        · rw [if_neg hemp] at this
          have hv := Option.some.inj this
          rw [hv] at hein
          exact (mem_serase.mp hein).2 rfl
      · have := hout pr.1 hgin
        rw [hlook2] at this
        have hmem : (pr.1, pr.2) ∈ s.entitiesPerGroup :=
          alookup_mem this.symm
        have := hdir1 _ hmem e hein
        rw [hc] at this
        exact hgin this
    refine ⟨_, hshape, ?_, alookup_aerase_self _ _, he_notin, hsub,
      (fun c h2 => alookup_aerase_none h2), rfl, rfl, rfl, rfl, rfl, rfl,
      rfl, rfl, rfl⟩
    refine ⟨hm2nd, nodupKeys_aerase _ hnd2, ?_, ?_, ?_⟩
    · intro pr hpr
      exact hvnd _ (mem_aerase.mp hpr).1
    · intro pr hpr x hx
      have hxe : x ≠ e := by
        intro hxe
        exact he_notin pr hpr (hxe ▸ hx)
      rw [alookup_aerase_ne _ hxe]
      obtain ⟨pr0, hpr0, heq, hsubv⟩ := hsub pr hpr
      rw [heq]
      exact hdir1 _ hpr0 x (hsubv x hx)
    · intro pr hpr g hgin
      obtain ⟨hprm, hpre⟩ := mem_aerase.mp hpr
      have hold := hdir2 _ hprm g hgin
      cases hlk : alookup s.entitiesPerGroup g with
      | none =>
        rw [hlk] at hold
        simp at hold
      | some esg =>
        rw [hlk] at hold
        simp at hold
        by_cases hgin2 : g ∈ gs
        · have := hin g hgin2 esg hlk
          have hprs : pr.1 ∈ serase esg e :=
            mem_serase.mpr ⟨hold, hpre⟩
          have hnemp : serase esg e ≠ [] := by
            intro hemp
            rw [hemp] at hprs
            simp at hprs
          rw [this, if_neg hnemp]
          simpa using hprs
        · rw [hout g hgin2, hlk]
          simpa using hold

----------------------------------------------------------------------------
-- Destruction flush
----------------------------------------------------------------------------

theorem contentOf_eq_none_iff {α : Type} (p : Pool α) (x : Nat) :
    p.contentOf x = none ↔ alookup p.entityIdToIndex x = none := by
  unfold Pool.contentOf
  cases alookup p.entityIdToIndex x <;> simp

theorem pool_remove_keeps_absent {α : Type} {p : Pool α} (hp : PoolInv p)
    {x : Nat} (e : Nat) (h : alookup p.entityIdToIndex x = none) :
    alookup (p.remove e).entityIdToIndex x = none := by
  obtain ⟨-, hcontent⟩ := pool_remove_spec hp e
  have h2 := hcontent x
  by_cases hx : x = e
  · rw [if_pos hx] at h2
    exact (contentOf_eq_none_iff _ _).mp h2
  · rw [if_neg hx] at h2
    rw [(contentOf_eq_none_iff p x).mpr h] at h2
    exact (contentOf_eq_none_iff _ _).mp h2

theorem destroyOne_spec {V : Type} {s : Coordinator V} (hinv : Invs s)
    (e : Nat) :
    ∃ t, destroyOne s e = some t ∧ Invs t ∧
      t.entityComponentSignatures = s.entityComponentSignatures.set e 0 ∧
      t.freeIds = s.freeIds ++ [e] ∧
      t.numEntites = s.numEntites ∧
      t.entitiesToBeCreated = s.entitiesToBeCreated ∧
      t.entitiesToBeDestroyed = s.entitiesToBeDestroyed ∧
      (∀ kv ∈ t.systems, e ∉ kv.2.entities) ∧
      (∀ c, SysAbsent s c → SysAbsent t c) ∧
      (∀ op ∈ t.componentPools, OptionPoolFree e op) ∧
      alookup t.tagPerEntityId e = none ∧
      (∀ pr ∈ t.entityPerTag, pr.2 ≠ e) ∧
      alookup t.groupsPerEntityId e = none ∧
      (∀ pr ∈ t.entitiesPerGroup, e ∉ pr.2) ∧
      (∀ c, c ≠ e → CleanId s c → CleanId t c) := by
  obtain ⟨hpools, htag, hgrp⟩ := hinv
  have hshape : destroyOne s e =
      (Coordinator.removeEntityGroups
        (Coordinator.removeEntityTag
          { s with
            systems := s.systems.map (fun kv =>
              (kv.1, kv.2.removeEntityToSystem e))
            entityComponentSignatures :=
              s.entityComponentSignatures.set e 0
            componentPools := s.componentPools.map
              (Option.map (fun p => Pool.remove p e))
            freeIds := s.freeIds ++ [e] } e) e) := rfl
  have htagS4 : TagInv
      { s with
        systems := s.systems.map (fun kv =>
          (kv.1, kv.2.removeEntityToSystem e))
        entityComponentSignatures := s.entityComponentSignatures.set e 0
        componentPools := s.componentPools.map
          (Option.map (fun p => Pool.remove p e))
        freeIds := s.freeIds ++ [e] } := htag
  obtain ⟨htagT1, htpeE, heptE, heptSub, htpePres⟩ :=
    removeEntityTag_spec htagS4 e
  obtain ⟨f1, f2, f3, f4, f5, f6, f7, f8, f9⟩ :=
    removeEntityTag_fields
      { s with
        systems := s.systems.map (fun kv =>
          (kv.1, kv.2.removeEntityToSystem e))
        entityComponentSignatures := s.entityComponentSignatures.set e 0
        componentPools := s.componentPools.map
          (Option.map (fun p => Pool.remove p e))
        freeIds := s.freeIds ++ [e] } e
  have hgrpT1 : GroupInv
      (Coordinator.removeEntityTag
        { s with
          systems := s.systems.map (fun kv =>
            (kv.1, kv.2.removeEntityToSystem e))
          entityComponentSignatures := s.entityComponentSignatures.set e 0
          componentPools := s.componentPools.map
            (Option.map (fun p => Pool.remove p e))
          freeIds := s.freeIds ++ [e] } e) := by
    unfold GroupInv
    rw [f8, f9]
    exact hgrp
  obtain ⟨t, hrun, hgt, hgpeE, hepgE, hsubE, hgpres,
    g1, g2, g3, g4, g5, g6, g7, g8, g9⟩ :=
    removeEntityGroups_spec hgrpT1 e
  have hsigs_t : t.entityComponentSignatures =
      s.entityComponentSignatures.set e 0 := by
    rw [g7, f7]
  have hpools_t : t.componentPools = s.componentPools.map
      (Option.map (fun p => Pool.remove p e)) := by
    rw [g5, f5]
  have hsystems_t : t.systems = s.systems.map (fun kv =>
      (kv.1, kv.2.removeEntityToSystem e)) := by
    rw [g6, f6]
  have hfree_t : t.freeIds = s.freeIds ++ [e] := by
    rw [g4, f4]
  have hpoolsInv_t : PoolsInv t := by
    intro op hop
    rw [hpools_t] at hop
    obtain ⟨op0, hop0, rfl⟩ := List.mem_map.mp hop
    cases op0 with
    | none => exact trivial
    | some q =>
      have hq : PoolInv q := hpools _ hop0
      exact (pool_remove_spec hq e).1
  have htag_t : TagInv t := by
    unfold TagInv
    rw [g8, g9]
    exact htagT1
  have hpoolfree_t : ∀ op ∈ t.componentPools, OptionPoolFree e op := by
    intro op hop
    rw [hpools_t] at hop
    obtain ⟨op0, hop0, rfl⟩ := List.mem_map.mp hop
    cases op0 with
    | none => exact trivial
    | some q =>
      have hq : PoolInv q := hpools _ hop0
      have := (pool_remove_spec hq e).2 e
      rw [if_pos rfl] at this
      exact (contentOf_eq_none_iff _ _).mp this
  refine ⟨t, by rw [hshape]; exact hrun, ⟨hpoolsInv_t, htag_t, hgt⟩,
    hsigs_t, hfree_t, by rw [g1, f1], by rw [g2, f2], by rw [g3, f3],
    ?_, ?_, hpoolfree_t, by rw [g9]; exact htpeE, ?_, hgpeE, hepgE, ?_⟩
  · intro kv hkv
    rw [hsystems_t] at hkv
    obtain ⟨kv0, hkv0, rfl⟩ := List.mem_map.mp hkv
    intro hmem
    unfold System.removeEntityToSystem at hmem
    simp [List.mem_filter] at hmem
  · intro c hc kv hkv
    rw [hsystems_t] at hkv
    obtain ⟨kv0, hkv0, rfl⟩ := List.mem_map.mp hkv
    intro hmem
    unfold System.removeEntityToSystem at hmem
    simp [List.mem_filter] at hmem
    exact hc kv0 hkv0 hmem.1
  · intro pr hpr
    rw [g8] at hpr
    exact heptE pr hpr
  · intro c hce hclean
    obtain ⟨hc1, hc2, hc3, hc4, hc5, hc6⟩ := hclean
    refine ⟨?_, ?_, ?_, ?_, ?_, ?_⟩
    · unfold sigGet
      rw [hsigs_t, getD_set_ne _ e c 0 0 (Ne.symm hce)]
      exact hc1
    · intro op hop
      rw [hpools_t] at hop
      obtain ⟨op0, hop0, rfl⟩ := List.mem_map.mp hop
      cases op0 with
      | none => exact trivial
      | some q =>
        have hq : PoolInv q := hpools _ hop0
        have hfree : alookup q.entityIdToIndex c = none := hc2 _ hop0
        exact pool_remove_keeps_absent hq e hfree
    · rw [g9]
      exact htpePres c hc3
    · intro pr hpr
      rw [g8] at hpr
      exact hc4 pr (heptSub pr hpr)
    · refine hgpres c ?_
      rw [f9]
      exact hc5
    · intro pr hpr
      obtain ⟨pr0, hpr0, heq, hsubv⟩ := hsubE pr hpr
      rw [f8] at hpr0
      intro hcin
      exact hc6 pr0 hpr0 (hsubv c hcin)

theorem removeEntityGroups_fields_of_some {V : Type} {s t : Coordinator V}
    {e : Nat} (h : s.removeEntityGroups e = some t) :
    t.numEntites = s.numEntites ∧
    t.entitiesToBeCreated = s.entitiesToBeCreated ∧
    t.entitiesToBeDestroyed = s.entitiesToBeDestroyed ∧
    t.freeIds = s.freeIds ∧
    t.componentPools = s.componentPools ∧
    t.systems = s.systems ∧
    t.entityComponentSignatures = s.entityComponentSignatures ∧
    t.entityPerTag = s.entityPerTag ∧
    t.tagPerEntityId = s.tagPerEntityId := by
  unfold Coordinator.removeEntityGroups at h
  cases hc : alookup s.groupsPerEntityId e with
  | none =>
    rw [hc] at h
    simp at h
    subst h
    exact ⟨rfl, rfl, rfl, rfl, rfl, rfl, rfl, rfl, rfl⟩
  | some gs =>
    rw [hc] at h
    cases hrun : eraseFromGroups s.entitiesPerGroup e gs with
    | none => simp [hrun] at h
    | some m2 =>
      simp [hrun] at h
      subst h
      exact ⟨rfl, rfl, rfl, rfl, rfl, rfl, rfl, rfl, rfl⟩

theorem destroyOne_systems {V : Type} {s t : Coordinator V} {x : Nat}
    (h : destroyOne s x = some t) :
    t.systems = s.systems.map (fun kv =>
      (kv.1, kv.2.removeEntityToSystem x)) := by
  have hshape : destroyOne s x =
      (Coordinator.removeEntityGroups
        (Coordinator.removeEntityTag
          { s with
            systems := s.systems.map (fun kv =>
              (kv.1, kv.2.removeEntityToSystem x))
            entityComponentSignatures :=
              s.entityComponentSignatures.set x 0
            componentPools := s.componentPools.map
              (Option.map (fun p => Pool.remove p x))
            freeIds := s.freeIds ++ [x] } x) x) := rfl
  rw [hshape] at h
  obtain ⟨-, -, -, -, -, h6, -, -, -⟩ := removeEntityGroups_fields_of_some h
  rw [h6]
  obtain ⟨-, -, -, -, -, f6, -, -, -⟩ :=
    removeEntityTag_fields
      { s with
        systems := s.systems.map (fun kv =>
          (kv.1, kv.2.removeEntityToSystem x))
        entityComponentSignatures := s.entityComponentSignatures.set x 0
        componentPools := s.componentPools.map
          (Option.map (fun p => Pool.remove p x))
        freeIds := s.freeIds ++ [x] } x
  rw [f6]

theorem destroyFold_systems {V : Type} (l : List Nat)
    {s t : Coordinator V} (hrun : List.foldlM destroyOne s l = some t) :
    ∀ k, alookup t.systems k = (alookup s.systems k).map (fun sys =>
      { sys with entities :=
          sys.entities.filter (fun x => decide (x ∉ l)) }) := by
  induction l generalizing s with
  | nil =>
    simp [List.foldlM] at hrun
    subst hrun
    intro k
    cases alookup s.systems k <;> simp
  | cons x rest ih =>
    rw [List.foldlM_cons] at hrun
    cases hx : destroyOne s x with
    | none =>
      rw [hx] at hrun
      simp at hrun
    | some s1 =>
      rw [hx] at hrun
      simp at hrun
      have hsys1 := destroyOne_systems hx
      intro k
      rw [ih hrun k, hsys1, alookup_map_pair]
      cases alookup s.systems k with
      | none => simp
      | some sys =>
        simp only [Option.map_some, Option.map_map, Function.comp]
        simp [System.removeEntityToSystem, List.filter_filter]
        refine List.filter_congr ?_
        intro a ha
        by_cases h1 : a = x
        · simp [h1]
        · by_cases h2 : a ∈ rest <;> simp [h1, h2]

theorem addEntityToSystems_fields {V : Type} (s : Coordinator V)
    (e : Nat) :
    (s.addEntityToSystems e).numEntites = s.numEntites ∧
    (s.addEntityToSystems e).entitiesToBeCreated = s.entitiesToBeCreated ∧
    (s.addEntityToSystems e).entitiesToBeDestroyed =
      s.entitiesToBeDestroyed ∧
    (s.addEntityToSystems e).freeIds = s.freeIds ∧
    (s.addEntityToSystems e).componentPools = s.componentPools ∧
    (s.addEntityToSystems e).entityComponentSignatures =
      s.entityComponentSignatures ∧
    (s.addEntityToSystems e).entityPerTag = s.entityPerTag ∧
    (s.addEntityToSystems e).tagPerEntityId = s.tagPerEntityId ∧
    (s.addEntityToSystems e).entitiesPerGroup = s.entitiesPerGroup ∧
    (s.addEntityToSystems e).groupsPerEntityId = s.groupsPerEntityId := by
  unfold Coordinator.addEntityToSystems
  split <;> simp

theorem addEntityToSystems_lookup {V : Type} (s : Coordinator V)
    (e k : Nat) :
    alookup (s.addEntityToSystems e).systems k =
      (alookup s.systems k).map (fun sys =>
        if decide (e < s.entityComponentSignatures.length) &&
            sigMatch (sigGet s e) sys.componentSignature then
          { sys with entities := sys.entities ++ [e] }
        else sys) := by
  unfold Coordinator.addEntityToSystems
  by_cases hlen : s.entityComponentSignatures.length ≤ e
  · rw [if_pos hlen]
    have hd : decide (e < s.entityComponentSignatures.length) = false := by
      simp
      omega
    rw [hd]
    simp
  · rw [if_neg hlen]
    have hd : decide (e < s.entityComponentSignatures.length) = true := by
      simp
      omega
    rw [hd]
    simp only [Bool.true_and]
    have hfun : (fun kv : Nat × System =>
        if sigMatch (sigGet s e) kv.2.componentSignature then
          (kv.1, kv.2.addEntityToSystem e) else kv) =
        (fun kv : Nat × System => (kv.1,
          if sigMatch (sigGet s e) kv.2.componentSignature then
            kv.2.addEntityToSystem e else kv.2)) := by
      funext kv
      by_cases h : sigMatch (sigGet s e) kv.2.componentSignature
      · simp [h]
      · simp [h]
    rw [hfun, alookup_map_pair]
    cases alookup s.systems k with
    | none => simp
    | some sys =>
      simp only [Option.map_some]
      by_cases h : sigMatch (sigGet s e) sys.componentSignature = true
      · simp [h, System.addEntityToSystem]
      · simp [h]

theorem foldAdd_fields {V : Type} (P : List Nat) (s : Coordinator V) :
    (P.foldl Coordinator.addEntityToSystems s).numEntites = s.numEntites ∧
    (P.foldl Coordinator.addEntityToSystems s).entitiesToBeCreated =
      s.entitiesToBeCreated ∧
    (P.foldl Coordinator.addEntityToSystems s).entitiesToBeDestroyed =
      s.entitiesToBeDestroyed ∧
    (P.foldl Coordinator.addEntityToSystems s).freeIds = s.freeIds ∧
    (P.foldl Coordinator.addEntityToSystems s).componentPools =
      s.componentPools ∧
    (P.foldl Coordinator.addEntityToSystems s).entityComponentSignatures =
      s.entityComponentSignatures ∧
    (P.foldl Coordinator.addEntityToSystems s).entityPerTag =
      s.entityPerTag ∧
    (P.foldl Coordinator.addEntityToSystems s).tagPerEntityId =
      s.tagPerEntityId ∧
    (P.foldl Coordinator.addEntityToSystems s).entitiesPerGroup =
      s.entitiesPerGroup ∧
    (P.foldl Coordinator.addEntityToSystems s).groupsPerEntityId =
      s.groupsPerEntityId := by
  induction P generalizing s with
  | nil => exact ⟨rfl, rfl, rfl, rfl, rfl, rfl, rfl, rfl, rfl, rfl⟩
  | cons p P ih =>
    obtain ⟨i1, i2, i3, i4, i5, i6, i7, i8, i9, i10⟩ :=
      ih (s.addEntityToSystems p)
    obtain ⟨a1, a2, a3, a4, a5, a6, a7, a8, a9, a10⟩ :=
      addEntityToSystems_fields s p
    rw [List.foldl_cons]
    exact ⟨i1.trans a1, i2.trans a2, i3.trans a3, i4.trans a4,
      i5.trans a5, i6.trans a6, i7.trans a7, i8.trans a8,
      i9.trans a9, i10.trans a10⟩

theorem foldAdd_lookup {V : Type} (P : List Nat) (s : Coordinator V)
    (k : Nat) :
    alookup (P.foldl Coordinator.addEntityToSystems s).systems k =
      (alookup s.systems k).map (fun sys =>
        { sys with entities := sys.entities ++
            P.filter (fun p =>
              decide (p < s.entityComponentSignatures.length) &&
              sigMatch (sigGet s p) sys.componentSignature) }) := by
  induction P generalizing s with
  | nil =>
    rw [List.foldl_nil]
    cases alookup s.systems k <;> simp
  | cons p P ih =>
    rw [List.foldl_cons, ih (s.addEntityToSystems p)]
    obtain ⟨-, -, -, -, -, a6, -, -, -, -⟩ := addEntityToSystems_fields s p
    have hsig : sigGet (s.addEntityToSystems p) = sigGet s := by
      funext q
      unfold sigGet
      rw [a6]
    rw [addEntityToSystems_lookup, a6, hsig]
    cases alookup s.systems k with
    | none => simp
    | some sys =>
      simp only [Option.map_some, Option.map_map, Function.comp]
      by_cases hp : (decide (p < s.entityComponentSignatures.length) &&
          sigMatch (sigGet s p) sys.componentSignature) = true
      · have hcond : p < s.entityComponentSignatures.length ∧
            sigMatch (sigGet s p) sys.componentSignature = true := by
          simpa using hp
        simp [hcond, hp, List.filter_cons, List.append_assoc]
      · have hp2 : (decide (p < s.entityComponentSignatures.length) &&
            sigMatch (sigGet s p) sys.componentSignature) = false := by
          revert hp
          cases decide (p < s.entityComponentSignatures.length) &&
            sigMatch (sigGet s p) sys.componentSignature <;> simp
        have hcond : ¬(p < s.entityComponentSignatures.length ∧
            sigMatch (sigGet s p) sys.componentSignature = true) := by
          intro hc
          simp [hc.1, hc.2] at hp2
        simp [hcond, hp2, List.filter_cons]

theorem invs_congr {V : Type} {a b : Coordinator V}
    (h5 : a.componentPools = b.componentPools)
    (h8 : a.entityPerTag = b.entityPerTag)
    (h9 : a.tagPerEntityId = b.tagPerEntityId)
    (h10 : a.entitiesPerGroup = b.entitiesPerGroup)
    (h11 : a.groupsPerEntityId = b.groupsPerEntityId)
    (h : Invs b) : Invs a := by
  unfold Invs PoolsInv TagInv GroupInv at h ⊢
  rw [h5, h8, h9, h10, h11]
  exact h

theorem flushCreated_fields {V : Type} (s : Coordinator V) :
    (flushCreated s).numEntites = s.numEntites ∧
    (flushCreated s).entitiesToBeCreated = [] ∧
    (flushCreated s).entitiesToBeDestroyed = s.entitiesToBeDestroyed ∧
    (flushCreated s).freeIds = s.freeIds ∧
    (flushCreated s).componentPools = s.componentPools ∧
    (flushCreated s).entityComponentSignatures =
      s.entityComponentSignatures ∧
    (flushCreated s).entityPerTag = s.entityPerTag ∧
    (flushCreated s).tagPerEntityId = s.tagPerEntityId ∧
    (flushCreated s).entitiesPerGroup = s.entitiesPerGroup ∧
    (flushCreated s).groupsPerEntityId = s.groupsPerEntityId := by
  obtain ⟨b1, b2, b3, b4, b5, b6, b7, b8, b9, b10⟩ :=
    foldAdd_fields s.entitiesToBeCreated s
  exact ⟨b1, rfl, b3, b4, b5, b6, b7, b8, b9, b10⟩

theorem destroyFold_spec {V : Type} (l : List Nat) (s : Coordinator V)
    (hinv : Invs s) (hnd : l.Nodup) :
    ∃ t, List.foldlM destroyOne s l = some t ∧ Invs t ∧
      t.entityComponentSignatures.length =
        s.entityComponentSignatures.length ∧
      t.freeIds = s.freeIds ++ l ∧
      (∀ e ∈ l, SysAbsent t e ∧
        (e < s.entityComponentSignatures.length → CleanId t e)) ∧
      (∀ c, c ∉ l → CleanId s c → CleanId t c) ∧
      (∀ c, SysAbsent s c → SysAbsent t c) := by
  induction l generalizing s with
  | nil =>
    refine ⟨s, by simp [List.foldlM], hinv, rfl, by simp, by simp,
      fun c _ h => h, fun c h => h⟩
  | cons x rest ih =>
    obtain ⟨s1, hx, hinv1, hsig1, hfree1, -, -, -, hsysE1, hsysP1, hpf1,
      htpe1, hept1, hgpe1, hepg1, hcp1⟩ := destroyOne_spec hinv x
    obtain ⟨hxrest, hrestnd⟩ := List.nodup_cons.mp hnd
    have hlen1 : s1.entityComponentSignatures.length =
        s.entityComponentSignatures.length := by
      rw [hsig1]
      simp
    have hclean1 : x < s.entityComponentSignatures.length →
        CleanId s1 x := by
      intro hlt
      refine ⟨?_, hpf1, htpe1, hept1, hgpe1, hepg1⟩
      unfold sigGet
      rw [hsig1]
      exact getD_set_self _ _ _ _ hlt
    obtain ⟨t, hrun, hinvt, hlent, hfreet, hperE, hcleanP, hsysP⟩ :=
      ih s1 hinv1 hrestnd
    refine ⟨t, ?_, hinvt, hlent.trans hlen1, ?_, ?_, ?_, ?_⟩
    · rw [List.foldlM_cons, hx]
      simpa using hrun
    · rw [hfreet, hfree1]
      simp
    · intro e he
      rcases List.mem_cons.mp he with rfl | her
      · refine ⟨hsysP e hsysE1, ?_⟩
        intro hlt
        exact hcleanP e hxrest (hclean1 hlt)
      · obtain ⟨ha, hb⟩ := hperE e her
        exact ⟨ha, fun hlt => hb (by omega)⟩
    · intro c hc hcl
      have hc1 : c ≠ x := fun hcx => hc (hcx ▸ List.mem_cons_self _ _)
      have hc2 : c ∉ rest := fun hcr => hc (List.mem_cons_of_mem _ hcr)
      exact hcleanP c hc2 (hcp1 c hc1 hcl)
    · intro c hc
      exact hsysP c (hsysP1 c hc)

/-- C1: for every entity in the pending-destruction set when `update()`
is called (with in-range id, a duplicate-free pending set — guaranteed by
the `std::set` — and the coordinator's representation invariants),
`update()` succeeds and afterwards the entity is absent from every
registered system's entity list, its component signature is empty, no
registered component pool retrieves a component for its identifier, its
tag binding and all of its group memberships are gone (`CleanId`), and
its identifier has been appended to the free-list behind the previously
free ids; moreover `create()` always recycles the oldest freed
identifier — the front of the FIFO free-list — before minting a new
one. -/
theorem update_purges_destroyed_entity {V : Type} (s : Coordinator V)
    (e : Nat)
    (hmem : e ∈ s.entitiesToBeDestroyed)
    (hnd : s.entitiesToBeDestroyed.Nodup)
    (hlen : e < s.entityComponentSignatures.length)
    (hinv : Invs s) :
    (∃ t, s.update = some t ∧
      SysAbsent t e ∧ CleanId t e ∧
      t.freeIds = s.freeIds ++ s.entitiesToBeDestroyed) ∧
    (∀ (u : Coordinator V) (f : Nat) (rest : List Nat),
      u.freeIds = f :: rest →
      (Coordinator.create u).1 = f ∧
      (Coordinator.create u).2.freeIds = rest) := by
  constructor
  · obtain ⟨c1, c2, c3, c4, c5, c6, c7, c8, c9, c10⟩ :=
      flushCreated_fields s
    have hinv1 : Invs (flushCreated s) := invs_congr c5 c7 c8 c9 c10 hinv
    obtain ⟨t0, hrun, hinvt, hlent, hfreet, hperE, -, -⟩ :=
      destroyFold_spec s.entitiesToBeDestroyed (flushCreated s) hinv1 hnd
    rw [← c3] at hrun
    have hupd : s.update = some { t0 with entitiesToBeDestroyed := [] } := by
      simp only [Coordinator.update]
      rw [hrun]
    have hmem1 : e ∈ (flushCreated s).entitiesToBeDestroyed := by
      rw [c3]
      exact hmem
    obtain ⟨hsysA, hcleanC⟩ := hperE e hmem
    have hlen2 : e < (flushCreated s).entityComponentSignatures.length := by
      rw [c6]
      exact hlen
    refine ⟨{ t0 with entitiesToBeDestroyed := [] }, hupd,
      hsysA, hcleanC hlen2, ?_⟩
    have : ({ t0 with entitiesToBeDestroyed := [] } :
        Coordinator V).freeIds = t0.freeIds := rfl
    rw [this, hfreet, c4]
  · intro u f rest hf
    constructor
    · unfold Coordinator.create
      rw [hf]
    · unfold Coordinator.create
      rw [hf]

/-- Concrete scenario for the C1 witness: entity 0 is live with one
component, one tag and one group membership, belongs to one system, and
is pending destruction. -/
def demoCoord : Coordinator Nat :=
  { numEntites := 1
    entitiesToBeCreated := []
    entitiesToBeDestroyed := [0]
    freeIds := []
    componentPools := [some ((Pool.init Nat).set 0 42)]
    systems := [(0, ⟨1, [0]⟩)]
    entityComponentSignatures := [1]
    entityPerTag := [("player", 0)]
    tagPerEntityId := [(0, "player")]
    entitiesPerGroup := [("enemies", [0])]
    groupsPerEntityId := [(0, ["enemies"])] }

theorem update_purges_destroyed_entity_witness :
    (∃ t, demoCoord.update = some t ∧
      SysAbsent t 0 ∧ CleanId t 0 ∧
      t.freeIds = demoCoord.freeIds ++ demoCoord.entitiesToBeDestroyed) ∧
    (∀ (u : Coordinator Nat) (f : Nat) (rest : List Nat),
      u.freeIds = f :: rest →
      (Coordinator.create u).1 = f ∧
      (Coordinator.create u).2.freeIds = rest) :=
  update_purges_destroyed_entity demoCoord 0 (by decide) (by decide)
    (by decide) (by decide)

/-- C3: during the flush of pending creations, `addEntityToSystems` adds
an entity to a registered system exactly when the bitwise AND of the
entity's signature with the system's required signature equals the
system's required signature; in particular an entity with component
types 0, 1, 2 (signature 7) matches a system requiring 0 and 1
(signature 3) but not one requiring 0 and 3 (signature 9), and adding
extra unrelated components to an entity's signature never disqualifies
it from a system it already matches. -/
theorem addEntityToSystems_matching {V : Type} (s : Coordinator V)
    (e : Nat) (h : e < s.entityComponentSignatures.length) :
    (∀ k, alookup (s.addEntityToSystems e).systems k =
      (alookup s.systems k).map (fun sys =>
        if sigMatch (sigGet s e) sys.componentSignature then
          { sys with entities := sys.entities ++ [e] }
        else sys)) ∧
    (sigMatch 7 3 = true ∧ sigMatch 7 9 = false) ∧
    (∀ a x b, sigMatch a b = true → sigMatch (Nat.lor a x) b = true) := by
  refine ⟨?_, by decide, ?_⟩
  · intro k
    rw [addEntityToSystems_lookup]
    have hd : decide (e < s.entityComponentSignatures.length) = true := by
      simp [h]
    rw [hd]
    simp
  · intro a x b hm
    have hland : ∀ m n k : Nat,
        (Nat.land m n).testBit k = ((m.testBit k) && (n.testBit k)) :=
      fun m n k => Nat.testBit_land m n k
    have hlor : ∀ m n k : Nat,
        (Nat.lor m n).testBit k = ((m.testBit k) || (n.testBit k)) :=
      fun m n k => Nat.testBit_lor m n k
    unfold sigMatch at hm ⊢
    rw [decide_eq_true_iff] at hm
    rw [decide_eq_true_iff]
    apply Nat.eq_of_testBit_eq
    intro i
    have hbit := congrArg (fun n => n.testBit i) hm
    simp only [hland, hlor] at hbit ⊢
    cases hb : b.testBit i <;> cases ha : a.testBit i <;>
      cases hx : x.testBit i <;> simp_all

theorem addEntityToSystems_matching_witness :
    (∀ k, alookup (demoCoord.addEntityToSystems 0).systems k =
      (alookup demoCoord.systems k).map (fun sys =>
        if sigMatch (sigGet demoCoord 0) sys.componentSignature then
          { sys with entities := sys.entities ++ [0] }
        else sys)) ∧
    (sigMatch 7 3 = true ∧ sigMatch 7 9 = false) ∧
    (∀ a x b, sigMatch a b = true → sigMatch (Nat.lor a x) b = true) :=
  addEntityToSystems_matching demoCoord 0 (by decide)

theorem create_spec {V : Type} (s : Coordinator V)
    (hnum : s.numEntites ≤ s.entityComponentSignatures.length)
    (hfree : ∀ id ∈ s.freeIds, id < s.entityComponentSignatures.length) :
    (Coordinator.create s).2.systems = s.systems ∧
    (Coordinator.create s).1 <
      (Coordinator.create s).2.entityComponentSignatures.length ∧
    (Coordinator.create s).1 ∈
      (Coordinator.create s).2.entitiesToBeCreated ∧
    (Coordinator.create s).2.entitiesToBeDestroyed =
      s.entitiesToBeDestroyed ∧
    (Coordinator.create s).2.componentPools = s.componentPools ∧
    (Coordinator.create s).2.entityPerTag = s.entityPerTag ∧
    (Coordinator.create s).2.tagPerEntityId = s.tagPerEntityId ∧
    (Coordinator.create s).2.entitiesPerGroup = s.entitiesPerGroup ∧
    (Coordinator.create s).2.groupsPerEntityId = s.groupsPerEntityId ∧
    (∀ x, sigGet (Coordinator.create s).2 x = sigGet s x) ∧
    ((s.freeIds = [] ∧ (Coordinator.create s).1 = s.numEntites) ∨
      (Coordinator.create s).1 ∈ s.freeIds) := by
  unfold Coordinator.create
  cases hf : s.freeIds with
  | nil =>
    by_cases hle : s.entityComponentSignatures.length ≤ s.numEntites
    · have heq : s.numEntites = s.entityComponentSignatures.length := by
        omega
      refine ⟨rfl, ?_, ?_, rfl, rfl, rfl, rfl, rfl, rfl, ?_, Or.inl ⟨rfl, rfl⟩⟩
      · simp only [if_pos hle]
        rw [List.length_append, List.length_replicate]
        by_cases h0 : s.entityComponentSignatures.length = 0
        · simp [h0]
          omega
        · simp [h0]
          omega
      · exact sinsert_self _ _
      · intro x
        simp only [if_pos hle]
        unfold sigGet
        exact getD_append_zero _ _ x
    · refine ⟨rfl, ?_, ?_, rfl, rfl, rfl, rfl, rfl, rfl, ?_, Or.inl ⟨rfl, rfl⟩⟩
      · simp only [if_neg hle]
        omega
      · exact sinsert_self _ _
      · intro x
        simp only [if_neg hle]
        rfl
    -- branch end
  | cons f rest =>
    refine ⟨rfl, ?_, sinsert_self _ _, rfl, rfl, rfl, rfl, rfl, rfl,
      fun x => rfl, Or.inr ?_⟩
    · exact hfree f (by rw [hf]; exact List.mem_cons_self _ _)
    · exact List.mem_cons_self _ _

theorem addComponent_fields {V : Type} [Inhabited V] (s : Coordinator V)
    (e cid : Nat) (v : V) :
    (s.addComponent e cid v).numEntites = s.numEntites ∧
    (s.addComponent e cid v).entitiesToBeCreated = s.entitiesToBeCreated ∧
    (s.addComponent e cid v).entitiesToBeDestroyed =
      s.entitiesToBeDestroyed ∧
    (s.addComponent e cid v).freeIds = s.freeIds ∧
    (s.addComponent e cid v).systems = s.systems ∧
    (s.addComponent e cid v).entityPerTag = s.entityPerTag ∧
    (s.addComponent e cid v).tagPerEntityId = s.tagPerEntityId ∧
    (s.addComponent e cid v).entitiesPerGroup = s.entitiesPerGroup ∧
    (s.addComponent e cid v).groupsPerEntityId = s.groupsPerEntityId ∧
    (s.addComponent e cid v).entityComponentSignatures.length =
      s.entityComponentSignatures.length := by
  unfold Coordinator.addComponent
  exact ⟨rfl, rfl, rfl, rfl, rfl, rfl, rfl, rfl, rfl, by simp⟩

/-- Attach a list of components (component id, value) to one entity in
order, via `addComponent` — the "with any components then attached"
part of the deferred-flush scenario. -/
def applyAdds {V : Type} [Inhabited V] (s : Coordinator V) (e : Nat)
    (adds : List (Nat × V)) : Coordinator V :=
  adds.foldl (fun t cv => t.addComponent e cv.1 cv.2) s

theorem applyAdds_fields {V : Type} [Inhabited V] (s : Coordinator V)
    (e : Nat) (adds : List (Nat × V)) :
    (applyAdds s e adds).numEntites = s.numEntites ∧
    (applyAdds s e adds).entitiesToBeCreated = s.entitiesToBeCreated ∧
    (applyAdds s e adds).entitiesToBeDestroyed =
      s.entitiesToBeDestroyed ∧
    (applyAdds s e adds).freeIds = s.freeIds ∧
    (applyAdds s e adds).systems = s.systems ∧
    (applyAdds s e adds).entityPerTag = s.entityPerTag ∧
    (applyAdds s e adds).tagPerEntityId = s.tagPerEntityId ∧
    (applyAdds s e adds).entitiesPerGroup = s.entitiesPerGroup ∧
    (applyAdds s e adds).groupsPerEntityId = s.groupsPerEntityId ∧
    (applyAdds s e adds).entityComponentSignatures.length =
      s.entityComponentSignatures.length := by
  induction adds generalizing s with
  | nil => exact ⟨rfl, rfl, rfl, rfl, rfl, rfl, rfl, rfl, rfl, rfl⟩
  | cons cv adds ih =>
    obtain ⟨i1, i2, i3, i4, i5, i6, i7, i8, i9, i10⟩ :=
      ih (s.addComponent e cv.1 cv.2)
    obtain ⟨a1, a2, a3, a4, a5, a6, a7, a8, a9, a10⟩ :=
      addComponent_fields s e cv.1 cv.2
    exact ⟨i1.trans a1, i2.trans a2, i3.trans a3, i4.trans a4,
      i5.trans a5, i6.trans a6, i7.trans a7, i8.trans a8,
      i9.trans a9, i10.trans a10⟩

/-- C2: an entity handle returned by `create()` — with any components
then attached through `addComponent` — never appears in any system's
entity list before the next `update()` call (`create` and `addComponent`
leave every membership list untouched), and after a successful
`update()` it appears in a registered system exactly when its signature
matches the system's required signature.  Hypotheses: live system
members are previously created, non-freed ids; the signature vector
covers the already-minted ids and every free id; and the fresh entity is
not simultaneously pending destruction. -/
theorem create_deferred_isolation {V : Type} [Inhabited V]
    (s s1 s2 : Coordinator V) (e : Nat) (adds : List (Nat × V))
    (hcr : Coordinator.create s = (e, s1))
    (hs2 : s2 = applyAdds s1 e adds)
    (hsys : ∀ kv ∈ s.systems, ∀ x ∈ kv.2.entities,
      x < s.numEntites ∧ x ∉ s.freeIds)
    (hnum : s.numEntites ≤ s.entityComponentSignatures.length)
    (hfree : ∀ id ∈ s.freeIds, id < s.entityComponentSignatures.length)
    (hnd : e ∉ s.entitiesToBeDestroyed) :
    s1.systems = s.systems ∧
    s2.systems = s.systems ∧
    (∀ kv ∈ s2.systems, e ∉ kv.2.entities) ∧
    (∀ t, s2.update = some t →
      ∀ k sys, alookup t.systems k = some sys →
        (e ∈ sys.entities ↔
          sigMatch (sigGet s2 e) sys.componentSignature = true)) := by
  obtain ⟨p1, p2, p3, p4, p5, p6, p7, p8, p9, p10, p11⟩ :=
    create_spec s hnum hfree
  have he1 : (Coordinator.create s).1 = e := by rw [hcr]
  have he2 : (Coordinator.create s).2 = s1 := by rw [hcr]
  rw [he2] at p1 p4
  rw [he1, he2] at p2 p3
  rw [he1] at p11
  subst hs2
  obtain ⟨q1, q2, q3, q4, q5, q6, q7, q8, q9, q10⟩ :=
    applyAdds_fields s1 e adds
  have hnotin : ∀ kv ∈ s.systems, e ∉ kv.2.entities := by
    intro kv hkv hmem
    obtain ⟨hlt, hnf⟩ := hsys kv hkv e hmem
    rcases p11 with ⟨hfe, heq⟩ | hin
    · omega
    · exact hnf hin
  refine ⟨p1, q5.trans p1, ?_, ?_⟩
  · intro kv hkv
    rw [q5, p1] at hkv
    exact hnotin kv hkv
  · intro t hupd k sys hlk
    simp only [Coordinator.update] at hupd
    cases hrun : List.foldlM destroyOne (flushCreated (applyAdds s1 e adds))
        (flushCreated (applyAdds s1 e adds)).entitiesToBeDestroyed with
    | none =>
      rw [hrun] at hupd
      exact absurd hupd (by simp)
    | some t0 =>
      rw [hrun] at hupd
      have hupd2 : ({ t0 with entitiesToBeDestroyed := [] } :
          Coordinator V) = t := Option.some.inj hupd
      have htsys : t.systems = t0.systems := by
        rw [← hupd2]
      have hlk2 : alookup t0.systems k = some sys := by
        rw [← htsys]
        exact hlk
      have hsysT := destroyFold_systems _ hrun k
      rw [hsysT] at hlk2
      have hflookup := foldAdd_lookup
        (applyAdds s1 e adds).entitiesToBeCreated (applyAdds s1 e adds) k
      have hflush_sys : alookup
          (flushCreated (applyAdds s1 e adds)).systems k =
          alookup ((applyAdds s1 e adds).entitiesToBeCreated.foldl
            Coordinator.addEntityToSystems (applyAdds s1 e adds)).systems
            k := rfl
      rw [hflush_sys, hflookup] at hlk2
      have hXsys : alookup (applyAdds s1 e adds).systems k =
          alookup s.systems k := by
        rw [q5, p1]
      rw [hXsys] at hlk2
      cases halk : alookup s.systems k with
      | none =>
        rw [halk] at hlk2
        exact absurd hlk2 (by simp)
      | some sys0 =>
        rw [halk] at hlk2
        simp only [Option.map] at hlk2
        have hsys_eq := Option.some.inj hlk2
        have hnotin0 : e ∉ sys0.entities :=
          hnotin (k, sys0) (alookup_mem halk)
        obtain ⟨c1, c2, c3, c4, c5, c6, c7, c8, c9, c10⟩ :=
          flushCreated_fields (applyAdds s1 e adds)
        have hD : e ∉ (flushCreated
            (applyAdds s1 e adds)).entitiesToBeDestroyed := by
          rw [c3, q3, p4]
          exact hnd
        have hP : e ∈ (applyAdds s1 e adds).entitiesToBeCreated := by
          rw [q2]
          exact p3
        have hlen : e < (applyAdds
            s1 e adds).entityComponentSignatures.length := by
          rw [q10]
          exact p2
        rw [← hsys_eq]
        simp only [List.mem_filter, List.mem_append, decide_eq_true_iff]
        constructor
        · rintro ⟨h1 | h1, h2⟩
          · exact absurd h1 hnotin0
          · obtain ⟨-, h3⟩ := h1
            simp only [Bool.and_eq_true, decide_eq_true_iff] at h3
            exact h3.2
        · intro hm
          refine ⟨Or.inr ⟨hP, ?_⟩, by exact hD⟩
          simp only [Bool.and_eq_true, decide_eq_true_iff]
          exact ⟨hlen, hm⟩

/-- Concrete scenario for the C2 witness: two registered systems, one
requiring components 0 and 1 (signature 3) and one requiring components
0 and 3 (signature 9); a fresh entity then receives components 0, 1
and 2. -/
def demoC2 : Coordinator Nat :=
  { numEntites := 0
    entitiesToBeCreated := []
    entitiesToBeDestroyed := []
    freeIds := []
    componentPools := []
    systems := [(0, ⟨3, []⟩), (1, ⟨9, []⟩)]
    entityComponentSignatures := []
    entityPerTag := []
    tagPerEntityId := []
    entitiesPerGroup := []
    groupsPerEntityId := [] }

theorem create_deferred_isolation_witness :
    (Coordinator.create demoC2).2.systems = demoC2.systems ∧
    (applyAdds (Coordinator.create demoC2).2 0
      [(0, 7), (1, 8), (2, 9)]).systems = demoC2.systems ∧
    (∀ kv ∈ (applyAdds (Coordinator.create demoC2).2 0
        [(0, 7), (1, 8), (2, 9)]).systems, 0 ∉ kv.2.entities) ∧
    (∀ t, (applyAdds (Coordinator.create demoC2).2 0
        [(0, 7), (1, 8), (2, 9)]).update = some t →
      ∀ k sys, alookup t.systems k = some sys →
        (0 ∈ sys.entities ↔
          sigMatch (sigGet (applyAdds (Coordinator.create demoC2).2 0
            [(0, 7), (1, 8), (2, 9)]) 0) sys.componentSignature = true)) :=
  create_deferred_isolation demoC2 (Coordinator.create demoC2).2
    (applyAdds (Coordinator.create demoC2).2 0 [(0, 7), (1, 8), (2, 9)])
    0 [(0, 7), (1, 8), (2, 9)] rfl rfl (by decide) (by decide)
    (by decide) (by decide)

theorem getD_of_length_le {γ : Type} (l : List γ) (i : Nat) (d : γ)
    (h : l.length ≤ i) : l.getD i d = d := by
  induction l generalizing i with
  | nil => simp
  | cons hd tl ih =>
    cases i with
    | zero => simp at h
    | succ n =>
      simp only [List.getD_cons_succ]
      simp at h
      exact ih n (by omega)

/-- `Coordinator::getComponent<T>` (part_001 lines 622-630), made total:
`none` when the component type's pool was never allocated or the entity
stores no such component (behaviour the C++ code leaves undefined). -/
def Coordinator.getComponent {V : Type} (s : Coordinator V)
    (entity componentId : Nat) : Option V :=
  match s.componentPools.getD componentId none with
  | none => none
  | some q => q.contentOf entity

theorem pool_set_content_self {α : Type} (p : Pool α) (e : Nat) (v : α) :
    (p.set e v).contentOf e = some v := by
  unfold Pool.set Pool.contentOf
  cases h : alookup p.entityIdToIndex e with
  | none =>
    simp only
    rw [alookup_aemplace_self _ h]
    simp
  | some i =>
    simp only
    rw [h]
    simp

/-- C9: `addComponent` is synchronous and immediate — it stores the
constructed component in the type's pool and sets the signature bit —
but it leaves every registered system's entity membership list
untouched: an already-live entity does not join any newly-matching
system until a flush driven by creation/destruction. -/
theorem addComponent_immediate_no_membership {V : Type} [Inhabited V]
    (s : Coordinator V) (e cid : Nat) (v : V)
    (hlen : e < s.entityComponentSignatures.length) :
    (s.addComponent e cid v).systems = s.systems ∧
    (s.addComponent e cid v).getComponent e cid = some v ∧
    (s.addComponent e cid v).hasComponent e cid = true := by
  obtain ⟨-, -, -, -, hsys, -, -, -, -, -⟩ := addComponent_fields s e cid v
  refine ⟨hsys, ?_, ?_⟩
  · unfold Coordinator.getComponent Coordinator.addComponent
    simp only
    have hlen0 : cid < (if s.componentPools.length ≤ cid then
        s.componentPools ++
          List.replicate (cid + 1 - s.componentPools.length) none
      else s.componentPools).length := by
      by_cases hc : s.componentPools.length ≤ cid
      · simp [hc]
        omega
      · simp [hc]
        omega
    have hgen : ∀ (l : List (Option (Pool V))), cid < l.length →
        cid < (if (l.getD cid none).isNone = true then
          l.set cid (some (Pool.init V)) else l).length := by
      intro l hl
      split
      · simpa using hl
      · exact hl
    rw [getD_set_self _ _ _ _ (hgen _ hlen0)]
    exact pool_set_content_self _ e v
  · unfold Coordinator.hasComponent Coordinator.addComponent sigGet
    simp only
    rw [getD_set_self _ _ _ _ hlen]
    have h1 : (Nat.shiftLeft 1 cid).testBit cid = true := by
      show (1 <<< cid).testBit cid = true
      rw [Nat.shiftLeft_eq, one_mul]
      exact Nat.testBit_two_pow_self
    have h2 : ∀ m n k : Nat,
        (Nat.lor m n).testBit k = ((m.testBit k) || (n.testBit k)) :=
      fun m n k => Nat.testBit_lor m n k
    rw [h2, h1]
    simp

theorem addComponent_immediate_no_membership_witness :
    (demoCoord.addComponent 0 2 5).systems = demoCoord.systems ∧
    (demoCoord.addComponent 0 2 5).getComponent 0 2 = some 5 ∧
    (demoCoord.addComponent 0 2 5).hasComponent 0 2 = true :=
  addComponent_immediate_no_membership demoCoord 0 2 5 (by decide)

/-- An optional pool whose stored entity ids are all below `n`. -/
def OptionPoolBound {V : Type} (n : Nat) : Option (Pool V) → Prop
  | none => True
  | some q => ∀ pr ∈ q.entityIdToIndex, pr.1 < n

instance {V : Type} (n : Nat) (op : Option (Pool V)) :
    Decidable (OptionPoolBound n op) :=
  match op with
  | none => isTrue trivial
  | some q =>
    (inferInstance : Decidable (∀ pr ∈ q.entityIdToIndex, pr.1 < n))

/-- All per-entity state mentions only already-minted ids, and signature
slots at or above `numEntites` are still zero — so ids that were never
handed out observe a clean state. -/
def FreshClean {V : Type} (s : Coordinator V) : Prop :=
  (∀ i ∈ List.range s.entityComponentSignatures.length,
    s.numEntites ≤ i → s.entityComponentSignatures.getD i 0 = 0) ∧
  (∀ op ∈ s.componentPools, OptionPoolBound s.numEntites op) ∧
  (∀ pr ∈ s.entityPerTag, pr.2 < s.numEntites) ∧
  (∀ pr ∈ s.tagPerEntityId, pr.1 < s.numEntites) ∧
  (∀ pr ∈ s.entitiesPerGroup, ∀ x ∈ pr.2, x < s.numEntites) ∧
  (∀ pr ∈ s.groupsPerEntityId, pr.1 < s.numEntites)

instance {V : Type} (s : Coordinator V) : Decidable (FreshClean s) := by
  unfold FreshClean
  exact inferInstance

theorem create_fields {V : Type} (s : Coordinator V) :
    (Coordinator.create s).2.componentPools = s.componentPools ∧
    (Coordinator.create s).2.entityPerTag = s.entityPerTag ∧
    (Coordinator.create s).2.tagPerEntityId = s.tagPerEntityId ∧
    (Coordinator.create s).2.entitiesPerGroup = s.entitiesPerGroup ∧
    (Coordinator.create s).2.groupsPerEntityId = s.groupsPerEntityId ∧
    (∀ x, sigGet (Coordinator.create s).2 x = sigGet s x) ∧
    ((s.freeIds = [] ∧ (Coordinator.create s).1 = s.numEntites) ∨
      (Coordinator.create s).1 ∈ s.freeIds) := by
  unfold Coordinator.create
  cases hf : s.freeIds with
  | nil =>
    refine ⟨rfl, rfl, rfl, rfl, rfl, ?_, Or.inl ⟨rfl, rfl⟩⟩
    intro x
    by_cases hle : s.entityComponentSignatures.length ≤ s.numEntites
    · simp only [if_pos hle]
      unfold sigGet
      exact getD_append_zero _ _ x
    · simp only [if_neg hle]
      rfl
  | cons f rest =>
    refine ⟨rfl, rfl, rfl, rfl, rfl, fun x => rfl, Or.inr ?_⟩
    exact List.mem_cons_self _ _

theorem cleanId_of_fresh {V : Type} (s : Coordinator V) (id : Nat)
    (hfresh : FreshClean s) (hid : s.numEntites ≤ id) : CleanId s id := by
  obtain ⟨h1, h2, h3, h4, h5, h6⟩ := hfresh
  refine ⟨?_, ?_, ?_, ?_, ?_, ?_⟩
  · unfold sigGet
    by_cases hlt : id < s.entityComponentSignatures.length
    · exact h1 id (by simp [hlt]) hid
    · exact getD_of_length_le _ _ _ (by omega)
  · intro op hop
    have hb2 := h2 op hop
    cases op with
    | none => exact trivial
    | some q =>
      show alookup q.entityIdToIndex id = none
      rw [alookup_eq_none_iff]
      intro hmem
      simp at hmem
      obtain ⟨b, hb⟩ := hmem
      have hlt : (id, b).1 < s.numEntites := hb2 (id, b) hb
      simp at hlt
      omega
  · rw [alookup_eq_none_iff]
    intro hmem
    simp at hmem
    obtain ⟨b, hb⟩ := hmem
    have := h4 (id, b) hb
    omega
  · intro pr hpr
    have := h3 pr hpr
    omega
  · rw [alookup_eq_none_iff]
    intro hmem
    simp at hmem
    obtain ⟨b, hb⟩ := hmem
    have := h6 (id, b) hb
    omega
  · intro pr hpr hin
    have := h5 pr hpr id hin
    omega

theorem cleanId_create_congr {V : Type} (s : Coordinator V) (id : Nat)
    (h : CleanId s id) : CleanId (Coordinator.create s).2 id := by
  obtain ⟨f1, f2, f3, f4, f5, f6, -⟩ := create_fields s
  obtain ⟨h1, h2, h3, h4, h5, h6⟩ := h
  refine ⟨?_, ?_, ?_, ?_, ?_, ?_⟩
  · rw [f6]
    exact h1
  · rw [f1]
    exact h2
  · rw [f3]
    exact h3
  · rw [f2]
    exact h4
  · rw [f5]
    exact h5
  · rw [f4]
    exact h6

/-- C10: every entity handle returned by `create()` — freshly minted or
recycled from the free-list — observes a clean state at the moment
`create()` returns: empty component signature (so `hasComponent` is
false for every component type), no stored component value in any pool,
no tag binding and no group membership.  Hypotheses: ids on the
free-list are clean (which `update()` establishes when it frees them,
see the destruction theorem) and never-minted ids carry no state
(`FreshClean`). -/
theorem create_returns_clean_entity {V : Type} (s : Coordinator V)
    (hfreeClean : ∀ id ∈ s.freeIds, CleanId s id)
    (hfresh : FreshClean s) :
    CleanId (Coordinator.create s).2 (Coordinator.create s).1 ∧
    ∀ cid, (Coordinator.create s).2.hasComponent
      (Coordinator.create s).1 cid = false := by
  obtain ⟨-, -, -, -, -, -, hcase⟩ := create_fields s
  have hclean : CleanId s (Coordinator.create s).1 := by
    rcases hcase with ⟨-, heq⟩ | hin
    · exact cleanId_of_fresh s _ hfresh (by omega)
    · exact hfreeClean _ hin
  have hclean2 := cleanId_create_congr s _ hclean
  refine ⟨hclean2, ?_⟩
  intro cid
  unfold Coordinator.hasComponent
  rw [hclean2.1]
  exact Nat.zero_testBit cid

/-- Concrete scenario for the C10 witness: id 5 was destroyed and sits
on the free-list of an otherwise clean coordinator. -/
def demoC10 : Coordinator Nat :=
  { numEntites := 6
    entitiesToBeCreated := []
    entitiesToBeDestroyed := []
    freeIds := [5]
    componentPools := []
    systems := []
    entityComponentSignatures := [0, 0, 0, 0, 0, 0]
    entityPerTag := []
    tagPerEntityId := []
    entitiesPerGroup := []
    groupsPerEntityId := [] }

theorem create_returns_clean_entity_witness :
    CleanId (Coordinator.create demoC10).2 (Coordinator.create demoC10).1 ∧
    ∀ cid, (Coordinator.create demoC10).2.hasComponent
      (Coordinator.create demoC10).1 cid = false :=
  create_returns_clean_entity demoC10 (by decide) (by decide)

/-- C6 (behaviour at the failing input): registering the same system
type twice keeps the FIRST instance.  `Coordinator::addSystem` inserts
through `std::unordered_map::insert`, which is a no-op on an existing
key, contradicting the code's own comment ("A system can be added
multiple times, but will replace the old one") and the spec's
replacement claim.  The "at most one instance per type" half does hold:
after two registrations the map still has exactly one entry, and
`getSystem` returns the first instance with the first required
signature. -/
theorem addSystem_keeps_first_instance :
    (((Coordinator.init Nat).addSystem 0 3).addSystem 0 9).getSystem 0 =
      some ⟨3, []⟩ ∧
    (((Coordinator.init Nat).addSystem 0 3).addSystem 0 9).systems.length
      = 1 ∧
    (3 : Nat) ≠ 9 := by
  decide

/-- C8 (behaviour at the failing input): `removeEntityGroup` takes the
reference `entitiesPerGroup.at(group)` before checking membership, so
calling it for an entity that belongs to some other group while the
requested group has no member set throws `std::out_of_range` (`none` in
the model) instead of being the no-op the spec requires; when the entity
is registered in no group at all the early guard does make it a no-op. -/
theorem removeEntityGroup_throws_on_missing_group :
    ((Coordinator.init Nat).groupEntity 0 "x").removeEntityGroup 0 "y" =
      none ∧
    (Coordinator.init Nat).removeEntityGroup 0 "y" =
      some (Coordinator.init Nat) := by
  constructor
  · rfl
  · rfl

----------------------------------------------------------------------------
-- Tag operation sequences (C7)
----------------------------------------------------------------------------

/-- One public tag-index operation. -/
inductive TagOp where
  | tagOp (entity : Nat) (tag : String)
  | removeEntityTagOp (entity : Nat)
  | removeTagOp (tag : String)

def applyTagOp {V : Type} (s : Coordinator V) : TagOp → Coordinator V
  | .tagOp e t => s.tagEntity e t
  | .removeEntityTagOp e => s.removeEntityTag e
  | .removeTagOp t => s.removeTag t

def applyTagOps {V : Type} (s : Coordinator V) (ops : List TagOp) :
    Coordinator V :=
  ops.foldl applyTagOp s

/-- A `tagEntity` call is benign when the tag is already bound (the call
is then a no-op) or the entity holds no tag yet. -/
def tagOpOk {V : Type} (s : Coordinator V) : TagOp → Bool
  | .tagOp e t =>
    (alookup s.entityPerTag t).isSome || (alookup s.tagPerEntityId e).isNone
  | .removeEntityTagOp _ => true
  | .removeTagOp _ => true

def tagOpsOk {V : Type} (s : Coordinator V) : List TagOp → Bool
  | [] => true
  | op :: rest => tagOpOk s op && tagOpsOk (applyTagOp s op) rest

theorem tagEntity_taginv {V : Type} {s : Coordinator V} (h : TagInv s)
    (e : Nat) (t : String)
    (hok : (alookup s.entityPerTag t).isSome = true ∨
      alookup s.tagPerEntityId e = none) :
    TagInv (s.tagEntity e t) := by
  unfold Coordinator.tagEntity
  by_cases hb : (alookup s.entityPerTag t).isSome = true
  · simp only [if_pos hb]
    exact h
  · simp only [if_neg hb]
    have ht : alookup s.entityPerTag t = none := by
      cases hcase : alookup s.entityPerTag t with
      | none => rfl
      | some x =>
        rw [hcase] at hb
        simp at hb
    have he : alookup s.tagPerEntityId e = none := by
      rcases hok with hok | hok
      · exact absurd hok hb
      · exact hok
    have hept : aemplace s.entityPerTag t e = (t, e) :: s.entityPerTag := by
      simp [aemplace, ht]
    have htpe : aemplace s.tagPerEntityId e t =
        (e, t) :: s.tagPerEntityId := by
      simp [aemplace, he]
    obtain ⟨hd1, hd2⟩ := h
    constructor
    · intro pr hpr
      rw [hept] at hpr
      rw [htpe]
      rcases List.mem_cons.mp hpr with rfl | hpr2
      · simp [alookup_cons]
      · have hpe : pr.2 ≠ e := by
          intro hpe
          have := hd1 pr hpr2
          rw [hpe, he] at this
          exact Option.noConfusion this
        rw [alookup_cons]
        simp [Ne.symm hpe]
        exact hd1 pr hpr2
    · intro pr hpr
      rw [htpe] at hpr
      rw [hept]
      rcases List.mem_cons.mp hpr with rfl | hpr2
      · simp [alookup_cons]
      · have hpt : pr.2 ≠ t := by
          intro hpt
          have := hd2 pr hpr2
          rw [hpt, ht] at this
          exact Option.noConfusion this
        rw [alookup_cons]
        simp [Ne.symm hpt]
        exact hd2 pr hpr2

theorem removeTag_taginv {V : Type} {s : Coordinator V} (h : TagInv s)
    (t : String) : TagInv (s.removeTag t) := by
  obtain ⟨hd1, hd2⟩ := h
  unfold Coordinator.removeTag
  cases hcase : alookup s.entityPerTag t with
  | none => exact ⟨hd1, hd2⟩
  | some x =>
    have htpe : alookup s.tagPerEntityId x = some t :=
      hd1 _ (alookup_mem hcase)
    constructor
    · intro pr hpr
      obtain ⟨hpr1, hpr2⟩ := mem_aerase.mp hpr
      have hpx : pr.2 ≠ x := by
        intro hpx
        have := hd1 _ hpr1
        rw [hpx, htpe] at this
        exact hpr2 (Option.some.inj this).symm
      rw [alookup_aerase_ne _ hpx]
      exact hd1 _ hpr1
    · intro pr hpr
      obtain ⟨hpr1, hpr2⟩ := mem_aerase.mp hpr
      have hpt : pr.2 ≠ t := by
        intro hpt
        have := hd2 _ hpr1
        rw [hpt, hcase] at this
        exact hpr2 (Option.some.inj this).symm
      rw [alookup_aerase_ne _ hpt]
      exact hd2 _ hpr1

theorem applyTagOps_taginv {V : Type} (ops : List TagOp)
    (s : Coordinator V) (h : TagInv s) (hok : tagOpsOk s ops = true) :
    TagInv (applyTagOps s ops) := by
  induction ops generalizing s with
  | nil => exact h
  | cons op rest ih =>
    rw [tagOpsOk, Bool.and_eq_true] at hok
    obtain ⟨hok1, hok2⟩ := hok
    have hstep : TagInv (applyTagOp s op) := by
      cases op with
      | tagOp e t =>
        rw [tagOpOk, Bool.or_eq_true] at hok1
        rcases hok1 with h1 | h1
        · exact tagEntity_taginv h e t (Or.inl h1)
        · exact tagEntity_taginv h e t
            (Or.inr (Option.isNone_iff_eq_none.mp h1))
      | removeEntityTagOp e => exact (removeEntityTag_spec h e).1
      | removeTagOp t => exact removeTag_taginv h t
    exact ih (applyTagOp s op) hstep hok2

/-- C7 counterexample: tagging an already-tagged entity with an unbound
tag string adds a second tag-side binding.  After
`tagEntity(0, "a"); tagEntity(0, "b")` the tag map resolves "b" to
entity 0 while entity 0's recorded tag is still "a" — the two maps are
not mutual inverses, and entity 0 is effectively bound by two tags. -/
theorem tag_second_binding_counterexample :
    alookup (applyTagOps (Coordinator.init Nat)
      [TagOp.tagOp 0 "a", TagOp.tagOp 0 "b"]).entityPerTag "b" =
        some 0 ∧
    alookup (applyTagOps (Coordinator.init Nat)
      [TagOp.tagOp 0 "a", TagOp.tagOp 0 "b"]).tagPerEntityId 0 =
        some "a" ∧
    ¬ TagInv (applyTagOps (Coordinator.init Nat)
      [TagOp.tagOp 0 "a", TagOp.tagOp 0 "b"]) := by
  decide

/-- C7 (amended): after every sequence of `tagEntity`,
`removeEntityTag` and `removeTag` calls in which `tagEntity` is never
applied to an already-tagged entity with a still-unbound tag string
(`tagOpsOk`), the tag-to-entity and entity-id-to-tag maps are mutual
inverses; consequently at most one tag binds any entity, and tagging
with a tag string that is already bound (to any entity) is a no-op
(first-writer-wins).  Without the restriction the maps can fall out of
sync, as the counterexample records. -/
theorem tag_maps_mutual_inverse (ops : List TagOp)
    (hok : tagOpsOk (Coordinator.init Nat) ops = true) :
    TagInv (applyTagOps (Coordinator.init Nat) ops) ∧
    (∀ pr1 ∈ (applyTagOps (Coordinator.init Nat) ops).entityPerTag,
      ∀ pr2 ∈ (applyTagOps (Coordinator.init Nat) ops).entityPerTag,
        pr1.2 = pr2.2 → pr1.1 = pr2.1) ∧
    (∀ (u : Coordinator Nat) (x : Nat) (tg : String),
      (alookup u.entityPerTag tg).isSome = true → u.tagEntity x tg = u) := by
  have hinv : TagInv (applyTagOps (Coordinator.init Nat) ops) :=
    applyTagOps_taginv ops (Coordinator.init Nat)
      ⟨by intro pr hpr; simp [Coordinator.init] at hpr,
       by intro pr hpr; simp [Coordinator.init] at hpr⟩ hok
  refine ⟨hinv, ?_, ?_⟩
  · intro pr1 hpr1 pr2 hpr2 heq
    have h1 := hinv.1 pr1 hpr1
    have h2 := hinv.1 pr2 hpr2
    rw [heq] at h1
    rw [h1] at h2
    exact Option.some.inj h2
  · intro u x tg hb
    unfold Coordinator.tagEntity
    simp [hb]

theorem tag_maps_mutual_inverse_witness :
    TagInv (applyTagOps (Coordinator.init Nat)
      [TagOp.tagOp 0 "a", TagOp.tagOp 1 "b", TagOp.removeTagOp "a"]) ∧
    (∀ pr1 ∈ (applyTagOps (Coordinator.init Nat)
        [TagOp.tagOp 0 "a", TagOp.tagOp 1 "b",
          TagOp.removeTagOp "a"]).entityPerTag,
      ∀ pr2 ∈ (applyTagOps (Coordinator.init Nat)
        [TagOp.tagOp 0 "a", TagOp.tagOp 1 "b",
          TagOp.removeTagOp "a"]).entityPerTag,
        pr1.2 = pr2.2 → pr1.1 = pr2.1) ∧
    (∀ (u : Coordinator Nat) (x : Nat) (tg : String),
      (alookup u.entityPerTag tg).isSome = true → u.tagEntity x tg = u) :=
  tag_maps_mutual_inverse
    [TagOp.tagOp 0 "a", TagOp.tagOp 1 "b", TagOp.removeTagOp "a"]
    (by decide)
